import Mathlib

/-!
# Verification of the IPM schedule/attendance pipeline

Shallow embedding of the core of the IPM repository (`src/lib/sheets.ts`,
`src/lib/attendance-logic.ts`, the calendar reconciler, and the calendar
sync route) together with theorems settling the frozen claims.

Conventions of the embedding:

* JavaScript strings are Lean `String`s (a list of `Char`s).  The character
  class `\s` of the JavaScript regexes used by the source is modelled by
  `isJsWs` covering the ASCII whitespace characters; the exotic Unicode
  space code points are not used by any claim.
* `String.prototype.trim`, `toLowerCase`, `toUpperCase`, `split(/\s+/)`,
  `replace(/\n/g, ' ')`, `replace(/\s+/g, ' ')` and
  `replace(/[^a-zA-Z0-9]/g, '')` are modelled by `jsTrim`, `jsToLower`,
  `jsToUpper`, `jsSplitWs`, `jsNlToSpace`, `jsCollapseWs` and
  `jsStripNonAlnum` respectively (`toLowerCase`/`toUpperCase` agree with
  `Char.toLower`/`Char.toUpper` on the ASCII letters that the source
  compares against).
* A TypeScript `Record<string, T>` is modelled by an association list
  `Rec T := List (String × T)`; property assignment conses a fresh entry in
  front, `recGet` returns the most recent binding, so assignment has
  overwrite semantics.  The validation guard of `parseSchedule`
  (`if (!courses[courseCode])`) tests JavaScript truthiness of a property
  read, and such a read resolves through the prototype chain: on a plain
  object `courses["toString"]` finds the inherited — and truthy —
  `Object.prototype.toString`.  `recHasTruthy` models that read, own keys
  plus the `Object.prototype` property names.  Reads whose result is then
  dereferenced as a `Course` record (`.type`, `.name`) keep the own-key
  model `recGet`: a prototype hit there is a function, not a `Course`, and
  in every such place the source's behavior on it coincides with the
  missing-key branch kept by the model.
* Optional chaining over the sheet grid payload is flattened into the
  normalized cell shape `CellData` (`stringValue`, `formattedValue`,
  `strikethrough`), exactly the tagged-union cell model the spec's design
  notes describe.  The JavaScript distinction between `undefined` and the
  (equally falsy) empty string is collapsed where the source only ever
  tests truthiness of the value.
-/

/-- ASCII whitespace, the fragment of the JavaScript `\s` class exercised by
the spreadsheet data (space, tab, line feed, carriage return, vertical tab,
form feed). -/
def isJsWs (c : Char) : Bool :=
  c = ' ' || c = '\t' || c = '\n' || c = '\r' || c = '\x0b' || c = '\x0c'

/-- `String.prototype.trim` on the character list. -/
def trimChars (l : List Char) : List Char :=
  ((l.dropWhile isJsWs).reverse.dropWhile isJsWs).reverse

/-- `String.prototype.trim`. -/
def jsTrim (s : String) : String := ⟨trimChars s.data⟩

/-- `String.prototype.toLowerCase` (ASCII). -/
def jsToLower (s : String) : String := ⟨s.data.map Char.toLower⟩

/-- `String.prototype.toUpperCase` (ASCII). -/
def jsToUpper (s : String) : String := ⟨s.data.map Char.toUpper⟩

/-- `replace(/\n/g, ' ')`. -/
def jsNlToSpace (s : String) : String :=
  ⟨s.data.map (fun c => if c = '\n' then ' ' else c)⟩

theorem dropWhile_length_le (p : α → Bool) (l : List α) :
    (l.dropWhile p).length ≤ l.length := by
  induction l with
  | nil => simp
  | cons a t ih =>
    by_cases h : p a
    · simp only [List.dropWhile_cons, h, if_true]
      exact Nat.le_succ_of_le ih
    · simp [List.dropWhile_cons, h]

/-- Worker for `collapseWsChars`: `afterWs` records whether the previous
character was whitespace (in which case further whitespace of the same run
emits nothing). -/
def collapseWsGo (afterWs : Bool) : List Char → List Char
  | [] => []
  | c :: cs =>
    if isJsWs c then
      if afterWs then collapseWsGo true cs
      else ' ' :: collapseWsGo true cs
    else c :: collapseWsGo false cs

/-- `replace(/\s+/g, ' ')`: every maximal run of whitespace becomes a single
space. -/
def collapseWsChars (l : List Char) : List Char := collapseWsGo false l

/-- `replace(/\s+/g, ' ')`. -/
def jsCollapseWs (s : String) : String := ⟨collapseWsChars s.data⟩

/-- Worker for `splitWsChars`: `cur` accumulates the current token in
reverse. -/
def splitWsGo (cur : List Char) : List Char → List (List Char)
  | [] => if cur.isEmpty then [] else [cur.reverse]
  | c :: cs =>
    if isJsWs c then
      if cur.isEmpty then splitWsGo [] cs
      else cur.reverse :: splitWsGo [] cs
    else splitWsGo (c :: cur) cs

/-- `split(/\s+/)` applied to an already trimmed string: the list of maximal
whitespace-free tokens. -/
def splitWsChars (l : List Char) : List (List Char) := splitWsGo [] l

/-- `split(/\s+/)` (on trimmed input, as used by the source). -/
def jsSplitWs (s : String) : List String := (splitWsChars s.data).map (⟨·⟩)

/-- `replace(/[^a-zA-Z0-9]/g, '')`: keep only ASCII letters and digits. -/
def jsStripNonAlnum (s : String) : String :=
  ⟨s.data.filter (fun c => c.isAlpha || c.isDigit)⟩

/-- Does `hay` start with `needle`? -/
def startsWithChars : List Char → List Char → Bool
  | [], _ => true
  | _ :: _, [] => false
  | a :: as, b :: bs => a = b && startsWithChars as bs

/-- `String.prototype.includes` on character lists. -/
def containsChars (hay needle : List Char) : Bool :=
  match hay with
  | [] => needle.isEmpty
  | _ :: t => startsWithChars needle hay || containsChars t needle

/-- `String.prototype.includes`. -/
def jsIncludes (s sub : String) : Bool := containsChars s.data sub.data

/-- `Record<string, T>`: an association list; the head is the most recent
assignment. -/
abbrev Rec (α : Type) : Type := List (String × α)

/-- Property read `m[k]`: the most recent binding. -/
def recGet : Rec α → String → Option α
  | [], _ => none
  | (k', v) :: t, k => if k' = k then some v else recGet t k

/-- Property assignment `m[k] = v` (overwrite = shadow older bindings). -/
def recSet (m : Rec α) (k : String) (v : α) : Rec α := (k, v) :: m

/-- Rewrite both fields of every binding (used for the post-processing pass
of `calculateStats`). -/
def recMapVals (f : α → α) (m : Rec α) : Rec α :=
  (m : List (String × α)).map (fun p => (p.1, f p.2))

theorem recGet_set_self (m : Rec α) (k : String) (v : α) :
    recGet (recSet m k v) k = some v := by
  simp [recSet, recGet]

theorem recGet_set_ne (m : Rec α) (k k' : String) (v : α) (h : k ≠ k') :
    recGet (recSet m k v) k' = recGet m k' := by
  simp [recSet, recGet, h]

theorem recGet_mapVals (f : α → α) (m : Rec α) (k : String) :
    recGet (recMapVals f m) k = (recGet m k).map f := by
  induction m with
  | nil => simp [recMapVals, recGet]
  | cons p t ih =>
    by_cases h : p.1 = k
    · simp [recMapVals, recGet, h]
    · simp only [recMapVals, List.map_cons, recGet, h, if_false] at ih ⊢
      exact ih

/-- The string keys at which a property read on a plain (`{}`-prototyped)
object reaches an inherited `Object.prototype` member.  Every value found
there is truthy: the standard methods are functions, and the `__proto__`
accessor yields `Object.prototype` itself. -/
def objectPrototypeKeys : List String :=
  ["constructor", "hasOwnProperty", "isPrototypeOf", "propertyIsEnumerable",
   "toLocaleString", "toString", "valueOf", "__proto__",
   "__defineGetter__", "__defineSetter__", "__lookupGetter__",
   "__lookupSetter__"]

/-- Truthiness of the JavaScript property read `m[k]` on a plain object:
an own key (whose value, an object, is truthy) or an inherited
`Object.prototype` member. -/
def recHasTruthy (m : Rec α) (k : String) : Bool :=
  (recGet m k).isSome || objectPrototypeKeys.contains k

theorem recHasTruthy_false (m : Rec α) (k : String)
    (h1 : recGet m k = none) (h2 : k ∉ objectPrototypeKeys) :
    recHasTruthy m k = false := by
  simp [recHasTruthy, h1, h2]

theorem recHasTruthy_true_elim (m : Rec α) (k : String)
    (h : recHasTruthy m k = true) :
    (recGet m k).isSome = true ∨ k ∈ objectPrototypeKeys := by
  rcases Bool.or_eq_true_iff.mp h with h0 | h0
  · exact Or.inl h0
  · exact Or.inr (by simpa using h0)

/-! ## Data model (`src/types.ts`) -/

/-- `Course` from `types.ts`.  The TypeScript declaration types `type` as the
union `'Core' | 'Elective' | 'Unknown'`, but `parseCourses` only casts the
cell text, so at runtime any string can occur; the field is therefore a
plain `String`.  `credits` is produced by `Number(row[2]) || 0`; no claim
mentions it, so the raw cell is kept instead of modelling JavaScript number
coercion. -/
structure Course where
  code : String
  name : String
  credits : Option String
  type : String
deriving Repr, DecidableEq

/-- `ClassSession` from `types.ts`.  `section` is `'A' | 'B' | null`; it is
modelled as `Option String` (the parser only ever stores `"A"`/`"B"`). -/
structure ClassSession where
  date : String
  timeSlot : String
  courseCode : String
  sessionNumber : String
  sec : Option String
  raw : String
  isCancelled : Bool
deriving Repr, DecidableEq

/-- `UserProfile` from `types.ts` (the optional `name` field is never read
by the core and is omitted). -/
structure UserProfile where
  email : String
  sec : String
  electives : List String
deriving Repr, DecidableEq

/-! ## `src/lib/attendance-logic.ts` -/

/-- `filterClassesForUser(rawSchedule, courses, userProfile)`: the filter
predicate applied to each session.  JavaScript truthiness of
`session.section` makes both `null` and `""` fall into the "common class"
branch. -/
def includeSession (courses : Rec Course) (userProfile : UserProfile)
    (session : ClassSession) : Bool :=
  match recGet courses session.courseCode with
  | none => true
  | some course =>
    if course.type = "Elective" then
      userProfile.electives.contains session.courseCode
    else if course.type = "Core" then
      match session.sec with
      | some s => if s = "" then true else s = userProfile.sec
      | none => true
    else true

/-- `filterClassesForUser` from `attendance-logic.ts`. -/
def filterClassesForUser (rawSchedule : List ClassSession)
    (courses : Rec Course) (userProfile : UserProfile) : List ClassSession :=
  rawSchedule.filter (includeSession courses userProfile)

/-- The per-course record accumulated by `calculateStats`. -/
structure CourseStat where
  total : Nat
  attended : Nat
  leaves : Nat
  allowedLeaves : Nat
deriving Repr, DecidableEq

/-- One iteration of the `sessions.forEach` loop of `calculateStats`:
`total` is always incremented; `attended` when the looked-up status is
`"Present"`, `leaves` when it is `"Absent"` (the two literals are distinct,
so the `if`/`else if` chain of the source is these two independent
increments). -/
def statsStep (attendance : Rec String) (stats : Rec CourseStat)
    (session : ClassSession) : Rec CourseStat :=
  let code := session.courseCode
  let key := code ++ "-" ++ session.sessionNumber
  let cur := (recGet stats code).getD ⟨0, 0, 0, 0⟩
  let status := recGet attendance key
  recSet stats code
    { total := cur.total + 1
      attended := cur.attended + (if status = some "Present" then 1 else 0)
      leaves := cur.leaves + (if status = some "Absent" then 1 else 0)
      allowedLeaves := cur.allowedLeaves }

/-- `calculateStats(sessions, attendance)` from `attendance-logic.ts`.

The post-processing pass sets `allowedLeaves = Math.floor(total * 0.20)`.
For every `total` expressible as an exact JavaScript number (below `2^53`)
the double computation `Math.floor(total * 0.20)` equals `⌊total / 5⌋`:
the double nearest to `0.20` is strictly greater than `1/5`, so the product
never rounds below `total / 5`, and the excess (≤ `total · 2^-54`) is far
too small to reach the next integer.  It is therefore embedded as natural
division by 5. -/
def calculateStats (sessions : List ClassSession)
    (attendance : Rec String) : Rec CourseStat :=
  let stats := sessions.foldl (statsStep attendance) ([] : Rec CourseStat)
  recMapVals (fun st => { st with allowedLeaves := st.total / 5 }) stats

/-! ## `parseCourses` (sheets.ts) -/

/-- The `type` field computed by `parseCourses`:
`(row[4]?.replace(/\n/g, ' ').replace(/\s+/g, ' ').trim() as Course['type']) || "Unknown"`.
The `as` cast is a compile-time assertion only; at runtime the normalized
text is stored verbatim, and only a missing cell or an empty normalization
falls back to `"Unknown"`. -/
def courseTypeOfCell (cell : Option String) : String :=
  match cell with
  | none => "Unknown"
  | some t =>
    let n := jsTrim (jsCollapseWs (jsNlToSpace t))
    if n = "" then "Unknown" else n

/-- One iteration of the `rows.slice(1).forEach` loop of `parseCourses`.
Sheet columns: Sl(0), Name(1), Credit(2), Code(3), Type(4). -/
def parseCoursesStep (courses : Rec Course) (row : List String) : Rec Course :=
  match (row.get? 3).map jsTrim with
  | none => courses
  | some code =>
    if code = "" then courses
    else
      recSet courses code
        { code := code
          name := match (row.get? 1).map jsTrim with
                  | some n => n
                  | none => ""
          credits := row.get? 2
          type := courseTypeOfCell (row.get? 4) }

/-- `parseCourses(rows)` from `sheets.ts` (row 0 is the header). -/
def parseCourses (rows : List (List String)) : Rec Course :=
  (rows.drop 1).foldl parseCoursesStep ([] : Rec Course)

/-! ## `parseSchedule` (sheets.ts) -/

/-- The normalized grid cell (spec §9's tagged-union cell model):
`userEnteredValue.stringValue`, `formattedValue`, and
`effectiveFormat.textFormat.strikethrough`, with every level of the
optional chain flattened into `Option`/`Bool`. -/
structure CellData where
  stringValue : Option String
  formattedValue : Option String
  strikethrough : Bool
deriving Repr, DecidableEq

/-- A row of the grid payload: `row.values` (a missing array is modelled as
`[]`, which the source treats identically everywhere it is read). -/
structure RowData where
  values : List CellData
deriving Repr, DecidableEq

/-- The grid payload handed to `parseSchedule`: `data.rowData`. -/
structure GridData where
  rowData : List RowData
deriving Repr, DecidableEq

/-- `cell?.userEnteredValue?.stringValue || cell?.formattedValue`, collapsed
to a `String` (`undefined` and `""` are interchangeable at every use site:
the value is only tested for truthiness or fed to functions applied after a
truthiness guard). -/
def cellDataText (c : CellData) : String :=
  match c.stringValue with
  | some s => if s = "" then c.formattedValue.getD "" else s
  | none => c.formattedValue.getD ""

/-- Text of the cell at index `i` of a row (missing cell ⇒ `""`). -/
def cellTextAt (values : List CellData) (i : Nat) : String :=
  match values.get? i with
  | some c => cellDataText c
  | none => ""

/-- `row.values?.some((c, i) => i > 0 && (c.userEnteredValue?.stringValue || c.formattedValue))`. -/
def rowHasData (values : List CellData) : Bool :=
  (values.drop 1).any (fun c => cellDataText c ≠ "")

/-- Does the label contain a time-of-day pattern?  This is the (boolean)
outcome of
`cleanSlot.match(/(\d{1,2}:\d{2}\s*(?:am|pm|noon|AM|PM)[\s\S]*?)(?:\r\n|\r|\n|$)/)`:
the trailing lazy group always succeeds, so a match exists iff the string
contains one or two digits, `:`, two digits, optional whitespace, then one
of `am`, `pm`, `noon`, `AM`, `PM`. -/
def timeTailAt (l : List Char) : Bool :=
  match l with
  | ':' :: a :: b :: rest =>
    a.isDigit && b.isDigit &&
      (let r := rest.dropWhile isJsWs
       startsWithChars ['a', 'm'] r || startsWithChars ['p', 'm'] r ||
       startsWithChars ['n', 'o', 'o', 'n'] r ||
       startsWithChars ['A', 'M'] r || startsWithChars ['P', 'M'] r)
  | _ => false

/-- A time pattern starting at this position (`\d{1,2}:\d{2}...`). -/
def timeAt (l : List Char) : Bool :=
  match l with
  | d1 :: rest =>
    d1.isDigit &&
      (timeTailAt rest ||
        match rest with
        | d2 :: rest2 => d2.isDigit && timeTailAt rest2
        | [] => false)
  | [] => false

/-- Existence of the time-range pattern anywhere in the label. -/
def hasTimePattern (s : String) : Bool := s.data.tails.any timeAt

/-- Length of the leftmost-position match of `/Slot\s*\d+\s*/i` when the
pattern matches at the head of `l` (`Slot` case-insensitively, then
greedy whitespace, at least one digit, greedy whitespace). -/
def slotMatchLenAt (l : List Char) : Option Nat :=
  match l with
  | s :: o :: t0 :: t1 :: rest =>
    if s.toLower = 's' ∧ o.toLower = 'l' ∧ t0.toLower = 'o' ∧ t1.toLower = 't' then
      let r1 := rest.dropWhile isJsWs
      let ds := r1.takeWhile Char.isDigit
      if ds.isEmpty then none
      else
        let r2 := r1.dropWhile Char.isDigit
        some (4 + (rest.length - r1.length) + ds.length +
          (r2.length - (r2.dropWhile isJsWs).length))
    else none
  | _ => none

/-- `replace(/Slot\s*\d+\s*/i, '')`: delete the leftmost match, if any. -/
def removeSlotToken : List Char → List Char
  | [] => []
  | c :: cs =>
    match slotMatchLenAt (c :: cs) with
    | some n => (c :: cs).drop n
    | none => c :: removeSlotToken cs

/-- The header cleanup applied to slot label `val` found at column `i`
(`i ≥ 3`); an empty/missing label defaults to `"Slot ⟨i-2⟩"`. -/
def cleanSlotLabel (i : Nat) (val : String) : String :=
  let cleanSlot := if val = "" then "Slot " ++ toString (i - 2) else val
  if hasTimePattern cleanSlot then
    jsTrim (jsNlToSpace (jsTrim ⟨removeSlotToken cleanSlot.data⟩))
  else cleanSlot

/-- The time-slot labels extracted from the header row (columns ≥ 3). -/
def timeSlotsOf (headerRow : List CellData) : List String :=
  ((List.range headerRow.length).drop 3).map
    (fun i => cleanSlotLabel i (cellTextAt headerRow i))

/-- `cell?.userEnteredValue?.stringValue || cell?.formattedValue` for a
possibly missing cell. -/
def cellText (cell : Option CellData) : String :=
  match cell with
  | some c => cellDataText c
  | none => ""

/-- The guard
`!text || !text.trim() || text.toLowerCase().includes("lunch") || text.toLowerCase().includes("break")`. -/
def cellSkip (text : String) : Bool :=
  text = "" || jsTrim text = "" ||
    jsIncludes (jsToLower text) "lunch" || jsIncludes (jsToLower text) "break"

/-- Course-code validation of `parseSchedule`: accept the first token if
`courses[token]` is truthy; otherwise strip non-alphanumeric characters
and retry once; otherwise reject the cell.  The source's guard
`if (!courses[courseCode])` is a truthiness test of a property read, so an
inherited `Object.prototype` member (all truthy) also passes it —
`recHasTruthy`, not mere key membership. -/
def resolveCode (courses : Rec Course) (p0 : String) : Option String :=
  if recHasTruthy courses p0 then some p0
  else
    let p0' := jsStripNonAlnum p0
    if recHasTruthy courses p0' then some p0' else none

/-- Section resolution for one cell: the third token (if present),
uppercased, when it is `"A"`/`"B"`; otherwise the row-level section when
that is exactly `"A"`/`"B"`; otherwise null.  `ps` is the token list after
the course code (so `ps.get? 1` is the third token of the cell). -/
def resolveSection (ps : List String) (rowSection : String) : Option String :=
  match ps with
  | _ :: p2 :: _ =>
    let sec := jsToUpper p2
    if sec = "A" ∨ sec = "B" then some sec
    else if rowSection = "A" ∨ rowSection = "B" then some rowSection
    else none
  | _ => if rowSection = "A" ∨ rowSection = "B" then some rowSection else none

/-- The body of the `timeSlots.forEach` callback of `parseSchedule`: parse
one grid cell (column `i + 3` of a data row) into at most one session.
`date` is the effective row date, `rowSection` the trimmed column-2 text,
`slotName` the header label of this column. -/
def cellSession (courses : Rec Course) (date rowSection slotName : String)
    (cell : Option CellData) : Option ClassSession :=
  let text := cellText cell
  if cellSkip text then none
  else
    match jsSplitWs (jsTrim text) with
    | [] => none
    | p0 :: ps =>
      match resolveCode courses p0 with
      | none => none
      | some courseCode =>
        some { date := date
               timeSlot := slotName
               courseCode := courseCode
               sessionNumber := ps.headD ""
               sec := resolveSection ps rowSection
               raw := text
               isCancelled := match cell with
                              | some c => c.strikethrough
                              | none => false }

/-- One iteration of the `rows.slice(2).forEach` data-row loop: from the
carried `lastDate` and the row, produce the new `lastDate` and this row's
sessions (in slot order). -/
def processRow (courses : Rec Course) (timeSlots : List String)
    (lastDate : Option String) (row : RowData) :
    Option String × List ClassSession :=
  let date0 := cellTextAt row.values 0
  if ¬ rowHasData row.values then (lastDate, [])
  else
    match (if date0 ≠ "" then some date0 else lastDate) with
    | none => (lastDate, [])
    | some date =>
      let rowSection := jsTrim (cellTextAt row.values 2)
      (some date,
        timeSlots.enum.filterMap
          (fun p => cellSession courses date rowSection p.2
            (row.values.get? (p.1 + 3))))

/-- `parseSchedule(data, courses)` from `sheets.ts`. -/
def parseSchedule (data : GridData) (courses : Rec Course) :
    List ClassSession :=
  let rows := data.rowData
  if rows.length < 3 then []
  else
    match rows.get? 1 with
    | none => []
    | some headerRow =>
      let timeSlots := timeSlotsOf headerRow.values
      ((rows.drop 2).foldl
        (fun (st : Option String × List ClassSession) row =>
          let next := processRow courses timeSlots st.1 row
          (next.1, st.2 ++ next.2))
        (none, [])).2

/-! ## `parseStudentProfile` (sheets.ts) -/

/-- `row[3]?.trim().toLowerCase() === targetEmail` (a missing cell is
`undefined` and never equals a string). -/
def rowEmailMatches (targetEmail : String) (row : List String) : Bool :=
  match row.get? 3 with
  | some v => jsToLower (jsTrim v) = targetEmail
  | none => false

/-- `parseStudentProfile(email, studentRows, electiveRowsMap)` from
`sheets.ts`.  Section rosters carry the email in column D (index 3) and the
section letter in column J (index 9); elective rosters carry the email in
column D (index 3). -/
def parseStudentProfile (email : String) (studentRows : List (List String))
    (electiveRowsMap : Rec (List (List String))) : UserProfile :=
  let targetEmail := jsToLower (jsTrim email)
  let studentRow := studentRows.find? (rowEmailMatches targetEmail)
  let sec :=
    match studentRow with
    | some row =>
      match row.get? 9 with
      | some v =>
        let secVal := jsToUpper (jsTrim v)
        if secVal = "A" ∨ secVal = "B" then secVal else "A"
      | none => "A"
    | none => "A"
  let electives :=
    (electiveRowsMap : List (String × List (List String))).filterMap
      (fun p => if p.2.any (rowEmailMatches targetEmail) then some p.1
                else none)
  { email := email, sec := sec, electives := electives }

/-! ## `syncToCalendar` (the calendar reconciler, `src/lib/calendar.ts`) -/

/-- The event body built by `syncToCalendar`.  `start`/`end` are computed
from `session.date` and `session.timeSlot` alone (via `Date` arithmetic
that is deterministic in those strings), so the body keeps the two strings
themselves; equal `(date, timeSlot)` pairs give equal start/end times. -/
structure EventBody where
  summary : String
  description : String
  date : String
  timeSlot : String
  signature : String
deriving Repr, DecidableEq

/-- A remote calendar event, reduced to what the reconciler reads and
writes: the event id, the private extended property `signature`, and the
request body it was last written with.  Real Google Calendar ids are opaque
strings; they are modelled as naturals handed out by a counter, with the
API's guarantee that a fresh id differs from every existing one expressed
as a hypothesis on the counter. -/
structure CalEvent where
  id : Nat
  signature : Option String
  body : EventBody
deriving Repr, DecidableEq

/-- The per-session signature: `` `${session.date}-${session.timeSlot}-${session.courseCode}` ``. -/
def signatureOf (session : ClassSession) : String :=
  session.date ++ "-" ++ session.timeSlot ++ "-" ++ session.courseCode

/-- The event body for a session:
`summary = "<code>: <name or 'Class'>"`, `description` embeds session
number and section (`session.section || 'Common'`), plus the private
signature. -/
def mkEventBody (courses : Rec Course) (session : ClassSession) : EventBody :=
  let name := match recGet courses session.courseCode with
              | some c => c.name
              | none => ""
  { summary := session.courseCode ++ ": " ++ (if name = "" then "Class" else name)
    description := "Session: " ++ session.sessionNumber ++ "\nSection: " ++
      (match session.sec with
       | some s => if s = "" then "Common" else s
       | none => "Common")
    date := session.date
    timeSlot := session.timeSlot
    signature := signatureOf session }

/-- The signature map built before the loop:
`existingEvents.forEach(e => { if (sig) existingMap.set(sig, e.id) })` — a
later event with the same signature overwrites an earlier one, so the map
returns the id of the *last* listed event carrying the signature. -/
def sigLookup : List CalEvent → String → Option Nat
  | [], _ => none
  | e :: t, sig =>
    match sigLookup t sig with
    | some i => some i
    | none => if e.signature = some sig then some e.id else none

/-- The mutable state of one reconciler run: the remote event list, the
fresh-id counter, and counts of the insert/update/delete calls issued. -/
structure SyncState where
  remote : List CalEvent
  nextId : Nat
  inserts : Nat
  updates : Nat
  deletes : Nat
deriving Repr, DecidableEq

/-- One iteration of the `for (const session of futureClasses)` loop.
`m` is the signature map captured from the remote state listed *before*
the loop (the code never refreshes it).  A delete removes the event with
the mapped id; an update rewrites that event's body and signature; an
insert appends a fresh event carrying the signature. -/
def syncStep (courses : Rec Course) (m : String → Option Nat)
    (st : SyncState) (session : ClassSession) : SyncState :=
  let sig := signatureOf session
  match m sig, session.isCancelled with
  | some eid, true =>
    { st with remote := st.remote.filter (fun e => e.id ≠ eid)
              deletes := st.deletes + 1 }
  | none, true => st
  | some eid, false =>
    { st with
        remote := st.remote.map
          (fun e => if e.id = eid then
              { id := e.id, signature := some sig
                body := mkEventBody courses session }
            else e)
        updates := st.updates + 1 }
  | none, false =>
    { st with
        remote := st.remote ++
          [{ id := st.nextId, signature := some sig
             body := mkEventBody courses session }]
        nextId := st.nextId + 1
        inserts := st.inserts + 1 }

/-- `syncToCalendar(accessToken, classes, courses)`.

`isFuture` abstracts the real-time filter
`new Date(Date.parse(c.date)) >= todayMidnight` (a pure predicate on the
date string once "now" is fixed; two runs "in succession" share it).
`remote` is the event list returned by `calendar.events.list` (already
restricted to the `source=ipm-tracker` tag), `nextId` the id counter
standing in for the server's fresh-id generation. -/
def syncToCalendar (isFuture : String → Bool) (classes : List ClassSession)
    (courses : Rec Course) (remote : List CalEvent) (nextId : Nat) :
    SyncState :=
  let existingMap := sigLookup remote
  let futureClasses := classes.filter (fun c => isFuture c.date)
  futureClasses.foldl (syncStep courses existingMap)
    { remote := remote, nextId := nextId, inserts := 0, updates := 0, deletes := 0 }

/-! ## The calendar sync route (`src/app/api/calendar/sync/route.ts`) -/

/-- The session list the sync route passes to `syncToCalendar`: the POST
handler builds the profile with an **empty** elective-rows map
(`parseStudentProfile(session.user.email, data.studentMaster, {})`) and
filters the parsed schedule with it. -/
def syncRouteClasses (email : String) (studentRows : List (List String))
    (schedule : List ClassSession) (courses : Rec Course) :
    List ClassSession :=
  filterClassesForUser schedule courses
    (parseStudentProfile email studentRows [])

/-! ## Claim C2 -/

/-- The inclusion condition of claim C2, written as the claim states it. -/
def claimIncludeCond (courses : Rec Course) (profile : UserProfile)
    (s : ClassSession) : Prop :=
  recGet courses s.courseCode = none ∨
    ∃ c, recGet courses s.courseCode = some c ∧
      ((c.type = "Elective" ∧ s.courseCode ∈ profile.electives) ∨
       (c.type = "Core" ∧ (s.sec = none ∨ s.sec = some profile.sec)) ∨
       (c.type ≠ "Elective" ∧ c.type ≠ "Core"))

theorem includeSession_true_iff (courses : Rec Course) (profile : UserProfile)
    (s : ClassSession)
    (hsec : s.sec = none ∨ s.sec = some "A" ∨ s.sec = some "B") :
    includeSession courses profile s = true ↔
      claimIncludeCond courses profile s := by
  unfold includeSession claimIncludeCond
  cases h : recGet courses s.courseCode with
  | none => simp
  | some c =>
    simp only [Option.some.injEq, reduceCtorEq, false_or]
    by_cases he : c.type = "Elective"
    · rw [if_pos he]
      constructor
      · intro hm
        exact ⟨c, rfl, Or.inl ⟨he, by simpa using hm⟩⟩
      · rintro ⟨c', rfl, (⟨_, hm⟩ | ⟨hcore, _⟩ | ⟨hne, _⟩)⟩
        · simpa using hm
        · rw [he] at hcore; exact absurd hcore (by decide)
        · exact absurd he hne
    · by_cases hc : c.type = "Core"
      · rw [if_neg he, if_pos hc]
        constructor
        · intro hm
          refine ⟨c, rfl, Or.inr (Or.inl ⟨hc, ?_⟩)⟩
          rcases hsec with h0 | h0 | h0
          · exact Or.inl h0
          · rw [h0] at hm ⊢
            simp only [if_neg (by decide : ¬ (("A" : String) = "")),
              decide_eq_true_eq] at hm
            exact Or.inr (by rw [hm])
          · rw [h0] at hm ⊢
            simp only [if_neg (by decide : ¬ (("B" : String) = "")),
              decide_eq_true_eq] at hm
            exact Or.inr (by rw [hm])
        · rintro ⟨c', rfl, (⟨hel, _⟩ | ⟨_, hs0⟩ | ⟨_, hne⟩)⟩
          · exact absurd hel he
          · rcases hs0 with hs0 | hs0
            · rw [hs0]
            · rw [hs0]
              by_cases hps : profile.sec = ""
              · simp [hps]
              · simp [hps]
          · exact absurd hc hne
      · rw [if_neg he, if_neg hc]
        constructor
        · intro _
          exact ⟨c, rfl, Or.inr (Or.inr ⟨he, hc⟩)⟩
        · intro _; rfl

/-- Claim C2: `filterClassesForUser` includes a session exactly when its
course code is absent from the mapping (fail-open), or the course type is
`"Elective"` and the session's code is a member of the profile's electives,
or the type is `"Core"` and the session's section is null or equals the
profile's section, or the type is anything else (include by default).  The
hypothesis restricts sessions to the declared TypeScript type of `section`
(`'A' | 'B' | null`), on which the JavaScript truthiness test of the source
coincides with the claim's null test. -/
theorem filterClassesForUser_membership
    (sessions : List ClassSession) (courses : Rec Course)
    (profile : UserProfile) (s : ClassSession)
    (hwf : ∀ t ∈ sessions, t.sec = none ∨ t.sec = some "A" ∨ t.sec = some "B") :
    s ∈ filterClassesForUser sessions courses profile ↔
      s ∈ sessions ∧ claimIncludeCond courses profile s := by
  unfold filterClassesForUser
  rw [List.mem_filter]
  exact and_congr_right fun hs => includeSession_true_iff courses profile s (hwf s hs)

/-- Sample data for the claim-C2 witness: one elective session of `GT`. -/
def gtCourse : Course :=
  { code := "GT", name := "Game Theory", credits := some "3", type := "Elective" }

/-- Sample session for the claim-C2 witness. -/
def gtSession : ClassSession :=
  ⟨"d1", "t1", "GT", "1", none, "GT 1", false⟩

theorem filterClassesForUser_membership_witness :
    gtSession ∈ filterClassesForUser [gtSession] [("GT", gtCourse)]
      ⟨"u@x.com", "A", ["GT"]⟩ :=
  (filterClassesForUser_membership [gtSession] [("GT", gtCourse)]
      ⟨"u@x.com", "A", ["GT"]⟩ gtSession (by decide)).mpr
    ⟨by decide, Or.inr ⟨gtCourse, rfl, Or.inl ⟨rfl, by decide⟩⟩⟩

/-! ## Claim C3 -/

/-- Invariant tying the accumulated stats record to the sessions already
processed: each tracked course's `total` equals the number of its sessions
seen so far, marks never exceed `total`, and untracked courses have no
sessions seen. -/
def statsInv (processed : List ClassSession) (m : Rec CourseStat) : Prop :=
  ∀ code,
    match recGet m code with
    | some st =>
        st.total = processed.countP (fun t => t.courseCode = code) ∧
        st.attended + st.leaves ≤ st.total
    | none => processed.countP (fun t => t.courseCode = code) = 0

theorem statsStep_get_self (att : Rec String) (m : Rec CourseStat)
    (s : ClassSession) :
    recGet (statsStep att m s) s.courseCode =
      some { total := ((recGet m s.courseCode).getD ⟨0, 0, 0, 0⟩).total + 1
             attended := ((recGet m s.courseCode).getD ⟨0, 0, 0, 0⟩).attended +
               (if recGet att (s.courseCode ++ "-" ++ s.sessionNumber) = some "Present"
                then 1 else 0)
             leaves := ((recGet m s.courseCode).getD ⟨0, 0, 0, 0⟩).leaves +
               (if recGet att (s.courseCode ++ "-" ++ s.sessionNumber) = some "Absent"
                then 1 else 0)
             allowedLeaves := ((recGet m s.courseCode).getD ⟨0, 0, 0, 0⟩).allowedLeaves } := by
  simp [statsStep, recGet_set_self]

theorem statsStep_get_ne (att : Rec String) (m : Rec CourseStat)
    (s : ClassSession) (code : String) (h : s.courseCode ≠ code) :
    recGet (statsStep att m s) code = recGet m code := by
  simp only [statsStep]
  exact recGet_set_ne _ _ _ _ h

theorem statsStep_inv (att : Rec String) (processed : List ClassSession)
    (m : Rec CourseStat) (s : ClassSession) (h : statsInv processed m) :
    statsInv (processed ++ [s]) (statsStep att m s) := by
  intro code
  by_cases hcode : s.courseCode = code
  · subst hcode
    rw [statsStep_get_self]
    have hcount : (processed ++ [s]).countP (fun t => t.courseCode = s.courseCode) =
        processed.countP (fun t => t.courseCode = s.courseCode) + 1 := by
      rw [List.countP_append]
      simp [List.countP_cons]
    have h0 := h s.courseCode
    have hinc : (if recGet att (s.courseCode ++ "-" ++ s.sessionNumber) = some "Present"
                  then 1 else 0) +
               (if recGet att (s.courseCode ++ "-" ++ s.sessionNumber) = some "Absent"
                  then 1 else 0) ≤ 1 := by
      cases hatt : recGet att (s.courseCode ++ "-" ++ s.sessionNumber) with
      | none => simp
      | some v =>
        by_cases hv : v = "Present"
        · simp [hv]
        · by_cases hv' : v = "Absent" <;> simp [hv, hv']
    cases hget : recGet m s.courseCode with
    | some st =>
      rw [hget] at h0
      simp only [hget, Option.getD_some, hcount]
      exact ⟨by rw [h0.1], by have h2 := h0.2; have h3 := hinc; omega⟩
    | none =>
      rw [hget] at h0
      simp only [hget, Option.getD_none, hcount, h0]
      refine ⟨trivial, ?_⟩
      simpa using hinc
  · rw [statsStep_get_ne _ _ _ _ hcode]
    have h0 := h code
    have hcount : (processed ++ [s]).countP (fun t => t.courseCode = code) =
        processed.countP (fun t => t.courseCode = code) := by
      rw [List.countP_append]
      simp [List.countP_cons, hcode]
    cases hget : recGet m code with
    | some st => rw [hget] at h0; rw [hcount]; exact h0
    | none => rw [hget] at h0; rw [hcount]; exact h0

theorem statsFold_inv (att : Rec String) (l : List ClassSession) :
    ∀ (processed : List ClassSession) (m : Rec CourseStat),
      statsInv processed m →
      statsInv (processed ++ l) (l.foldl (statsStep att) m) := by
  induction l with
  | nil => intro processed m h; simpa using h
  | cons s t ih =>
    intro processed m h
    have h' := statsStep_inv att processed m s h
    have h2 := ih (processed ++ [s]) (statsStep att m s) h'
    rw [List.append_assoc, List.singleton_append] at h2
    simpa only [List.foldl_cons] using h2

/-- Claim C3: every per-course record returned by `calculateStats`
satisfies `allowedLeaves = ⌊total / 5⌋` (the value of the source's
`Math.floor(total * 0.20)` for every total expressible as an exact
JavaScript integer), `attended + leaves ≤ total`, and `total` counts every
session of that code in the input list, regardless of its date. -/
theorem calculateStats_bounds (sessions : List ClassSession)
    (attendance : Rec String) (code : String) (st : CourseStat)
    (h : recGet (calculateStats sessions attendance) code = some st) :
    st.allowedLeaves = st.total / 5 ∧
    st.attended + st.leaves ≤ st.total ∧
    st.total = sessions.countP (fun t => t.courseCode = code) := by
  unfold calculateStats at h
  rw [recGet_mapVals] at h
  cases h0 : recGet (sessions.foldl (statsStep attendance) []) code with
  | none => rw [h0] at h; exact absurd h (by simp)
  | some st0 =>
    rw [h0] at h
    simp only [Option.map] at h
    have hbase : statsInv [] ([] : Rec CourseStat) := by
      intro c; simp [recGet]
    have hinv := statsFold_inv attendance sessions [] [] hbase
    have h1 := hinv code
    rw [h0] at h1
    obtain ⟨ht, hb⟩ := h1
    cases h
    refine ⟨rfl, hb, by simpa using ht⟩

/-- Sample input for the claim-C3 witness. -/
def statsSessionA : ClassSession := ⟨"d1", "t", "DT", "1", none, "DT 1", false⟩

/-- Sample input for the claim-C3 witness. -/
def statsSessionB : ClassSession := ⟨"d2", "t", "DT", "2", none, "DT 2", false⟩

theorem calculateStats_bounds_witness :
    (⟨3, 2, 1, 0⟩ : CourseStat).allowedLeaves = (3 : Nat) / 5 ∧
    (2 : Nat) + 1 ≤ 3 ∧
    (3 : Nat) = ([statsSessionA, statsSessionB, statsSessionA].countP
      (fun t => t.courseCode = "DT")) := by
  have := calculateStats_bounds [statsSessionA, statsSessionB, statsSessionA]
    [("DT-1", "Present"), ("DT-2", "Absent")] "DT" ⟨3, 2, 1, 0⟩ (by rfl)
  simpa using this

/-! ## Claim C4 -/

/-- Catalog rows exhibiting that `parseCourses` performs no enum matching:
the `type` cell holds the free text `"Compl. Elective"`. -/
def c4Rows : List (List String) :=
  [["Sl", "Name", "Credit", "Code", "Type"],
   ["1", "Design Thinking", "3", "DT", "Compl. Elective"]]

/-- Claim C4 is false on the code: the catalog row with type text
`"Compl. Elective"` matches none of the enum values `Core`, `Elective`,
`Unknown`, yet the resulting `Course` record keeps the text verbatim
instead of becoming `"Unknown"` (the TypeScript `as` cast performs no
runtime check, and the sheet-discovery code even relies on such values). -/
theorem parseCourses_type_counterexample :
    recGet (parseCourses c4Rows) "DT" =
      some { code := "DT", name := "Design Thinking", credits := some "3",
             type := "Compl. Elective" } ∧
    ("Compl. Elective" ≠ "Core" ∧ "Compl. Elective" ≠ "Elective" ∧
     "Compl. Elective" ≠ "Unknown") := by
  exact ⟨by decide, by decide⟩

/-- Claim C4 (amended): `parseCourses` whitespace-normalizes the type free
text (newlines to spaces, runs of whitespace collapsed, then trimmed) and
stores it verbatim; only a missing cell or an empty normalization becomes
`"Unknown"`.  There is no runtime matching against the enum, so every
produced course's type is `"Unknown"` or the (nonempty) normalization of
the row's column-4 text. -/
theorem parseCourses_type_normalized (rows : List (List String))
    (k : String) (c : Course) (h : recGet (parseCourses rows) k = some c) :
    c.type = "Unknown" ∨
      (c.type ≠ "" ∧ ∃ t, c.type = jsTrim (jsCollapseWs (jsNlToSpace t))) := by
  unfold parseCourses at h
  have main : ∀ (l : List (List String)) (m : Rec Course),
      (∀ k' c', recGet m k' = some c' →
        c'.type = "Unknown" ∨
          (c'.type ≠ "" ∧ ∃ t, c'.type = jsTrim (jsCollapseWs (jsNlToSpace t)))) →
      ∀ k' c', recGet (l.foldl parseCoursesStep m) k' = some c' →
        c'.type = "Unknown" ∨
          (c'.type ≠ "" ∧ ∃ t, c'.type = jsTrim (jsCollapseWs (jsNlToSpace t))) := by
    intro l
    induction l with
    | nil => intro m hm; exact hm
    | cons row t ih =>
      intro m hm
      rw [List.foldl_cons]
      refine ih (parseCoursesStep m row) ?_
      intro k' c' hget
      unfold parseCoursesStep at hget
      cases hrow : (row.get? 3).map jsTrim with
      | none => simp only [hrow] at hget; exact hm k' c' hget
      | some code =>
        simp only [hrow] at hget
        by_cases hcode : code = ""
        · rw [if_pos hcode] at hget; exact hm k' c' hget
        · rw [if_neg hcode] at hget
          by_cases hk : code = k'
          · subst hk
            rw [recGet_set_self] at hget
            cases hget
            unfold courseTypeOfCell
            cases row.get? 4 with
            | none => exact Or.inl rfl
            | some ty =>
              simp only []
              by_cases hn : jsTrim (jsCollapseWs (jsNlToSpace ty)) = ""
              · rw [if_pos hn]; exact Or.inl rfl
              · rw [if_neg hn]; exact Or.inr ⟨hn, ty, rfl⟩
          · rw [recGet_set_ne _ _ _ _ hk] at hget
            exact hm k' c' hget
  refine main _ _ ?_ k c h
  intro k' c' hget
  exact absurd hget (by simp [recGet])

theorem parseCourses_type_normalized_witness :
    ("Core" : String) = "Unknown" ∨
      (("Core" : String) ≠ "" ∧
        ∃ t, ("Core" : String) = jsTrim (jsCollapseWs (jsNlToSpace t))) := by
  have h := parseCourses_type_normalized
    [["Sl", "Name", "Credit", "Code", "Type"],
     ["1", "Design Thinking", "3", "DT", "Core"]] "DT"
    { code := "DT", name := "Design Thinking", credits := some "3", type := "Core" }
    (by rfl)
  simpa using h

/-! ## Claims C1, C7, C8 -/
theorem resolveCode_hasTruthy (courses : Rec Course) (p0 code : String)
    (h : resolveCode courses p0 = some code) :
    recHasTruthy courses code = true := by
  simp only [resolveCode] at h
  split at h
  · cases h; assumption
  · split at h
    · cases h; assumption
    · exact absurd h (by simp)

theorem cellSession_some_elim (courses : Rec Course)
    (date rowSection slotName : String) (cell : Option CellData)
    (s : ClassSession)
    (h : cellSession courses date rowSection slotName cell = some s) :
    ∃ p0 ps, jsSplitWs (jsTrim (cellText cell)) = p0 :: ps ∧
      resolveCode courses p0 = some s.courseCode ∧
      s.date = date ∧ s.timeSlot = slotName ∧
      s.sec = resolveSection ps rowSection := by
  simp only [cellSession] at h
  cases hskip : cellSkip (cellText cell) with
  | true => rw [hskip] at h; simp at h
  | false =>
    rw [hskip] at h
    simp only [Bool.false_eq_true, if_false] at h
    cases hsp : jsSplitWs (jsTrim (cellText cell)) with
    | nil => rw [hsp] at h; simp at h
    | cons p0 ps =>
      rw [hsp] at h
      cases hrc : resolveCode courses p0 with
      | none => simp only [hrc] at h; cases h
      | some code =>
        simp only [hrc] at h
        cases h
        exact ⟨p0, ps, rfl, hrc, rfl, rfl, rfl⟩

theorem resolveCode_none (courses : Rec Course) (p0 : String)
    (h1 : recHasTruthy courses p0 = false)
    (h2 : recHasTruthy courses (jsStripNonAlnum p0) = false) :
    resolveCode courses p0 = none := by
  simp [resolveCode, h1, h2]

theorem cellSession_none_of_unknown (courses : Rec Course)
    (date rowSection slotName : String) (cell : Option CellData)
    (h1 : recHasTruthy courses
      ((jsSplitWs (jsTrim (cellText cell))).headD "") = false)
    (h2 : recHasTruthy courses (jsStripNonAlnum
      ((jsSplitWs (jsTrim (cellText cell))).headD "")) = false) :
    cellSession courses date rowSection slotName cell = none := by
  simp only [cellSession]
  cases hskip : cellSkip (cellText cell) with
  | true => simp
  | false =>
    simp only [Bool.false_eq_true, if_false]
    cases hsp : jsSplitWs (jsTrim (cellText cell)) with
    | nil => simp
    | cons p0 ps =>
      rw [hsp] at h1 h2
      simp only [List.headD_cons] at h1 h2
      simp only [resolveCode_none courses p0 h1 h2]

theorem processRow_mem (courses : Rec Course) (ts : List String)
    (ld : Option String) (row : RowData) (s : ClassSession)
    (h : s ∈ (processRow courses ts ld row).2) :
    ∃ date rs sn cell, cellSession courses date rs sn cell = some s := by
  simp only [processRow] at h
  split at h
  · simp at h
  · split at h
    · simp at h
    · rename_i date _
      simp only [List.mem_filterMap] at h
      obtain ⟨p, _, hp⟩ := h
      exact ⟨date, _, _, _, hp⟩

theorem parseSchedule_fold_mem (courses : Rec Course) (ts : List String)
    (rows : List RowData) :
    ∀ (st : Option String × List ClassSession) (s : ClassSession),
      s ∈ (rows.foldl
        (fun (st : Option String × List ClassSession) row =>
          let next := processRow courses ts st.1 row
          (next.1, st.2 ++ next.2)) st).2 →
      s ∈ st.2 ∨ ∃ ld row, s ∈ (processRow courses ts ld row).2 := by
  induction rows with
  | nil => intro st s h; exact Or.inl h
  | cons row t ih =>
    intro st s h
    rw [List.foldl_cons] at h
    rcases ih _ s h with hmem | hex
    · rcases List.mem_append.mp hmem with hl | hr
      · exact Or.inl hl
      · exact Or.inr ⟨st.1, row, hr⟩
    · exact Or.inr hex

/-- Grid whose only populated slot cell reads `"toString 1"` — its first
token names an inherited `Object.prototype` member. -/
def protoGrid : GridData :=
  ⟨[⟨[]⟩,
    ⟨[⟨none, none, false⟩, ⟨none, none, false⟩, ⟨none, none, false⟩,
      ⟨some "Slot 1", none, false⟩]⟩,
    ⟨[⟨some "Mon", none, false⟩, ⟨none, none, false⟩,
      ⟨some "A", none, false⟩, ⟨some "toString 1", none, false⟩]⟩]⟩

/-- Claim C1 is false as stated: with the empty course mapping, the cell
`"toString 1"` has a first token that is not a key (and is unchanged by
stripping non-alphanumerics), yet `parseSchedule` produces a session for
that cell, and its `courseCode` is not a key of the mapping — the guard
`!courses[courseCode]` is a truthiness test that the inherited
`Object.prototype.toString` passes. -/
theorem parseSchedule_prototype_counterexample :
    recGet ([] : Rec Course) "toString" = none ∧
    jsStripNonAlnum "toString" = "toString" ∧
    parseSchedule protoGrid [] =
      [⟨"Mon", "Slot 1", "toString", "1", some "A", "toString 1", false⟩] ∧
    recGet ([] : Rec Course)
      (ClassSession.courseCode
        ⟨"Mon", "Slot 1", "toString", "1", some "A", "toString 1", false⟩)
      = none := by
  refine ⟨rfl, by decide, by decide, rfl⟩

/-- Claim C1 (amended): a grid cell whose first whitespace-separated token
is neither a key of the course mapping nor an `Object.prototype` property
name, and is still neither after stripping all non-alphanumeric
characters, produces no session; consequently every session
`parseSchedule` outputs has a `courseCode` that is a key of the supplied
course mapping or an `Object.prototype` property name (the validation
tests JavaScript truthiness of `courses[code]`, which resolves through the
prototype chain). -/
theorem parseSchedule_code_or_prototype :
    (∀ (courses : Rec Course) (date rowSection slotName : String)
        (cell : Option CellData),
      recGet courses ((jsSplitWs (jsTrim (cellText cell))).headD "") = none →
      ((jsSplitWs (jsTrim (cellText cell))).headD "") ∉ objectPrototypeKeys →
      recGet courses (jsStripNonAlnum
        ((jsSplitWs (jsTrim (cellText cell))).headD "")) = none →
      jsStripNonAlnum ((jsSplitWs (jsTrim (cellText cell))).headD "")
        ∉ objectPrototypeKeys →
      cellSession courses date rowSection slotName cell = none) ∧
    (∀ (data : GridData) (courses : Rec Course) (s : ClassSession),
      s ∈ parseSchedule data courses →
      (recGet courses s.courseCode).isSome = true ∨
        s.courseCode ∈ objectPrototypeKeys) := by
  constructor
  · intro courses date rs sn cell h1 h2 h3 h4
    exact cellSession_none_of_unknown courses date rs sn cell
      (recHasTruthy_false courses _ h1 h2)
      (recHasTruthy_false courses _ h3 h4)
  · intro data courses s h
    simp only [parseSchedule] at h
    split at h
    · simp at h
    · split at h
      · simp at h
      · rename_i headerRow _
        rcases parseSchedule_fold_mem courses
            (timeSlotsOf headerRow.values) _ _ s h with h0 | ⟨ld, row, h0⟩
        · simp at h0
        · obtain ⟨date, rs, sn, cell, hc⟩ := processRow_mem _ _ _ _ _ h0
          obtain ⟨p0, ps, _, hrc, _⟩ := cellSession_some_elim _ _ _ _ _ _ hc
          exact recHasTruthy_true_elim courses s.courseCode
            (resolveCode_hasTruthy courses p0 s.courseCode hrc)

/-- Claim C7: a data row with an empty date cell inherits the most recently
seen date; before any date is seen such a row is skipped; a row with no
populated cell beyond the date column produces no sessions (and leaves the
carried date untouched). -/
theorem processRow_merged_dates :
    (∀ (courses : Rec Course) (ts : List String) (ld : Option String)
        (row : RowData), rowHasData row.values = false →
      processRow courses ts ld row = (ld, [])) ∧
    (∀ (courses : Rec Course) (ts : List String) (row : RowData),
      rowHasData row.values = true → cellTextAt row.values 0 = "" →
      processRow courses ts none row = (none, [])) ∧
    (∀ (courses : Rec Course) (ts : List String) (d : String) (row : RowData),
      rowHasData row.values = true → cellTextAt row.values 0 = "" →
      (processRow courses ts (some d) row).1 = some d ∧
      ∀ s ∈ (processRow courses ts (some d) row).2, s.date = d) ∧
    (∀ (courses : Rec Course) (ts : List String) (ld : Option String)
        (row : RowData),
      rowHasData row.values = true → cellTextAt row.values 0 ≠ "" →
      (processRow courses ts ld row).1 = some (cellTextAt row.values 0) ∧
      ∀ s ∈ (processRow courses ts ld row).2,
        s.date = cellTextAt row.values 0) := by
  refine ⟨?_, ?_, ?_, ?_⟩
  · intro courses ts ld row h
    simp [processRow, h]
  · intro courses ts row h h0
    simp [processRow, h, h0]
  · intro courses ts d row h h0
    constructor
    · simp [processRow, h, h0]
    · intro s hs
      simp [processRow, h, h0, List.mem_filterMap] at hs
      obtain ⟨p, q, _, hp⟩ := hs
      obtain ⟨p0, ps, _, _, hdate, _, _⟩ := cellSession_some_elim _ _ _ _ _ _ hp
      exact hdate
  · intro courses ts ld row h h0
    constructor
    · simp [processRow, h, h0]
    · intro s hs
      simp [processRow, h, h0, List.mem_filterMap] at hs
      obtain ⟨p, q, _, hp⟩ := hs
      obtain ⟨p0, ps, _, _, hdate, _, _⟩ := cellSession_some_elim _ _ _ _ _ _ hp
      exact hdate

/-- Sample catalog record used by concrete scenario checks. -/
def dtCourse : Course :=
  { code := "DT", name := "Design Thinking", credits := some "3", type := "Core" }

/-- Sample course mapping used by concrete scenario checks. -/
def dtCourses : Rec Course := [("DT", dtCourse)]

theorem resolveSection_eq_get (ps : List String) (rs : String) :
    resolveSection ps rs =
      match ps.get? 1 with
      | some p2 =>
        if jsToUpper p2 = "A" ∨ jsToUpper p2 = "B" then some (jsToUpper p2)
        else if rs = "A" ∨ rs = "B" then some rs else none
      | none => if rs = "A" ∨ rs = "B" then some rs else none := by
  match ps with
  | [] => rfl
  | [a] => rfl
  | a :: b :: t => rfl

/-- Claim C8: a produced session's section is the cell's third token
uppercased when that is `"A"`/`"B"`, else the (trimmed) row-level section
when that is exactly `"A"`/`"B"`, else null; in particular cell text
`"DT 3 A"` with row section `"B"` yields section `"A"`, and `"DT 3"` with
row section `"B"` yields section `"B"`. -/
theorem cellSession_section_override :
    (∀ (courses : Rec Course) (date rowSection slotName : String)
        (cell : Option CellData) (s : ClassSession),
      cellSession courses date rowSection slotName cell = some s →
      s.sec =
        match (jsSplitWs (jsTrim (cellText cell))).get? 2 with
        | some p2 =>
          if jsToUpper p2 = "A" ∨ jsToUpper p2 = "B" then some (jsToUpper p2)
          else if rowSection = "A" ∨ rowSection = "B" then some rowSection
          else none
        | none =>
          if rowSection = "A" ∨ rowSection = "B" then some rowSection
          else none) ∧
    cellSession dtCourses "d1" "B" "s1" (some ⟨some "DT 3 A", none, false⟩) =
      some ⟨"d1", "s1", "DT", "3", some "A", "DT 3 A", false⟩ ∧
    cellSession dtCourses "d1" "B" "s1" (some ⟨some "DT 3", none, false⟩) =
      some ⟨"d1", "s1", "DT", "3", some "B", "DT 3", false⟩ := by
  refine ⟨?_, by decide, by decide⟩
  intro courses date rowSection slotName cell s h
  obtain ⟨p0, ps, hsp, _, _, _, hsec⟩ := cellSession_some_elim _ _ _ _ _ _ h
  rw [hsp, hsec, resolveSection_eq_get]
  rfl

/-- Sample cell for concrete grid checks. -/
def witCell (t : String) : CellData := ⟨some t, none, false⟩

/-- Sample empty cell for concrete grid checks. -/
def witEmptyCell : CellData := ⟨none, none, false⟩

/-- Sample grid: title row, header row with one slot column, one data row. -/
def witGrid : GridData :=
  ⟨[⟨[]⟩,
    ⟨[witEmptyCell, witEmptyCell, witEmptyCell, witCell "Slot 1"]⟩,
    ⟨[witCell "Mon", witEmptyCell, witCell "A", witCell "DT 1"]⟩]⟩

/-- The session `witGrid` parses to. -/
def witSession : ClassSession := ⟨"Mon", "Slot 1", "DT", "1", some "A", "DT 1", false⟩

theorem parseSchedule_code_or_prototype_witness :
    cellSession dtCourses "d" "" "slot" (some (witCell "and 3")) = none ∧
    ((recGet dtCourses witSession.courseCode).isSome = true ∨
      witSession.courseCode ∈ objectPrototypeKeys) := by
  constructor
  · exact parseSchedule_code_or_prototype.1 dtCourses "d" "" "slot"
      (some (witCell "and 3")) (by decide) (by decide) (by decide) (by decide)
  · exact parseSchedule_code_or_prototype.2 witGrid dtCourses witSession
      (by decide)

/-- Sample data row holding only a date (a spacer row). -/
def witRowBlank : RowData := ⟨[witCell "Tue"]⟩

/-- Sample data row with an empty date cell but populated slots. -/
def witRowNoDate : RowData := ⟨[witEmptyCell, witEmptyCell, witCell "A", witCell "DT 2"]⟩

theorem processRow_merged_dates_witness :
    processRow dtCourses ["s1"] (some "Mon") witRowBlank = (some "Mon", []) ∧
    processRow dtCourses ["s1"] none witRowNoDate = (none, []) ∧
    (processRow dtCourses ["s1"] (some "Mon") witRowNoDate).1 = some "Mon" := by
  refine ⟨?_, ?_, ?_⟩
  · exact processRow_merged_dates.1 dtCourses ["s1"] (some "Mon") witRowBlank (by decide)
  · exact processRow_merged_dates.2.1 dtCourses ["s1"] witRowNoDate (by decide) (by decide)
  · exact (processRow_merged_dates.2.2.1 dtCourses ["s1"] "Mon" witRowNoDate
      (by decide) (by decide)).1

theorem cellSession_section_override_witness :
    (some "A" : Option String) =
      (match (jsSplitWs (jsTrim (cellText (some (witCell "DT 3 A"))))).get? 2 with
       | some p2 =>
         if jsToUpper p2 = "A" ∨ jsToUpper p2 = "B" then some (jsToUpper p2)
         else if ("B" : String) = "A" ∨ ("B" : String) = "B" then some "B"
         else none
       | none =>
         if ("B" : String) = "A" ∨ ("B" : String) = "B" then some "B"
         else none) := by
  have h := cellSession_section_override.1 dtCourses "d1" "B" "s1"
    (some (witCell "DT 3 A")) ⟨"d1", "s1", "DT", "3", some "A", "DT 3 A", false⟩
    (by decide)
  simpa using h

/-! ## Claim C9 -/

/-- Roster rows for the claim-C9 counterexample: the matching row's
column 9 holds the lowercase letter `"b"`. -/
def c9Rows : List (List String) :=
  [["a", "b", "c", "u@x.com", "e", "f", "g", "h", "i", "b"]]

/-- Claim C9 is false as literally stated: the matching roster row's
column-9 value `"b"` is neither `"A"` nor `"B"`, so the claim predicts
section `"A"`, but the code uppercases the value first and returns
section `"B"`. -/
theorem parseStudentProfile_section_counterexample :
    c9Rows.find? (rowEmailMatches "u@x.com") =
      some ["a", "b", "c", "u@x.com", "e", "f", "g", "h", "i", "b"] ∧
    ["a", "b", "c", "u@x.com", "e", "f", "g", "h", "i", "b"].get? 9 = some "b" ∧
    ("b" ≠ "A" ∧ "b" ≠ "B") ∧
    (parseStudentProfile "u@x.com" c9Rows []).sec = "B" ∧
    (parseStudentProfile "u@x.com" c9Rows []).sec ≠ "A" := by
  refine ⟨by decide, by decide, by decide, by decide, by decide⟩

/-- Claim C9 (amended): if no section-roster row's email column (index 3,
trimmed, case-insensitive) matches the target email, or the matching row's
column-9 value — after trimming and uppercasing — is neither `"A"` nor
`"B"`, `parseStudentProfile` returns section `"A"`; if additionally the
email appears in no elective roster's email column, the returned electives
list is empty.  This default is a normal return value, not an error. -/
theorem parseStudentProfile_default_section
    (email : String) (studentRows : List (List String))
    (electiveRowsMap : Rec (List (List String)))
    (hsec : ∀ row,
      studentRows.find? (rowEmailMatches (jsToLower (jsTrim email))) = some row →
      ∀ v, row.get? 9 = some v →
        jsToUpper (jsTrim v) ≠ "A" ∧ jsToUpper (jsTrim v) ≠ "B") :
    (parseStudentProfile email studentRows electiveRowsMap).sec = "A" ∧
    ((∀ p ∈ electiveRowsMap,
        p.2.any (rowEmailMatches (jsToLower (jsTrim email))) = false) →
      (parseStudentProfile email studentRows electiveRowsMap).electives = []) := by
  constructor
  · simp only [parseStudentProfile]
    cases hf : studentRows.find? (rowEmailMatches (jsToLower (jsTrim email))) with
    | none => simp [hf]
    | some row =>
      simp only [hf]
      cases hv : row.get? 9 with
      | none => simp [hv]
      | some v =>
        simp only [hv]
        have hne := hsec row hf v hv
        simp [hne.1, hne.2]
  · intro hel
    simp only [parseStudentProfile]
    rw [List.filterMap_eq_nil_iff]
    intro p hp
    simp [hel p hp]

theorem parseStudentProfile_default_section_witness :
    (parseStudentProfile "u@y.com" []
      [("GT", [["q", "w", "e", "v@x.com"]])]).sec = "A" ∧
    (parseStudentProfile "u@y.com" []
      [("GT", [["q", "w", "e", "v@x.com"]])]).electives = [] := by
  have h := parseStudentProfile_default_section "u@y.com" []
    [("GT", [["q", "w", "e", "v@x.com"]])]
    (by intro row hrow; simp at hrow)
  exact ⟨h.1, h.2 (by decide)⟩

/-! ## Claim C10 -/

/-- Claim C10: the calendar sync route builds the user profile with an
empty elective-rows map, so the profile's electives list is always empty on
the sync path; consequently no session whose course (in the supplied
mapping) has type `"Elective"` is ever passed to `syncToCalendar`. -/
theorem syncRoute_never_syncs_electives :
    (∀ (email : String) (studentRows : List (List String)),
      (parseStudentProfile email studentRows []).electives = []) ∧
    (∀ (email : String) (studentRows : List (List String))
        (schedule : List ClassSession) (courses : Rec Course)
        (s : ClassSession) (c : Course),
      s ∈ syncRouteClasses email studentRows schedule courses →
      recGet courses s.courseCode = some c →
      c.type ≠ "Elective") := by
  constructor
  · intro email rows; rfl
  · intro email rows schedule courses s c hs hc hty
    unfold syncRouteClasses filterClassesForUser at hs
    have hpred := (List.mem_filter.mp hs).2
    unfold includeSession at hpred
    simp only [hc] at hpred
    rw [if_pos hty] at hpred
    have hempty : (parseStudentProfile email rows []).electives = [] := rfl
    rw [hempty] at hpred
    simp at hpred

theorem syncRoute_never_syncs_electives_witness :
    witSession ∈ syncRouteClasses "u@y.com" [] [witSession] dtCourses ∧
    recGet dtCourses witSession.courseCode = some dtCourse ∧
    dtCourse.type ≠ "Elective" :=
  ⟨by decide, by decide,
    syncRoute_never_syncs_electives.2 "u@y.com" [] [witSession] dtCourses
      witSession dtCourse (by decide) (by decide)⟩

/-! ## Claims C5, C6 -/
/-! ## Calendar reconciler lemmas -/

/-- Number of non-cancelled sessions in a list. -/
def countNC (l : List ClassSession) : Nat :=
  (l.filter (fun s => !s.isCancelled)).length

/-- The events a run starting from a no-match signature map inserts:
one fresh event per non-cancelled session, ids handed out sequentially. -/
def insertedEvents (courses : Rec Course) :
    List ClassSession → Nat → List CalEvent
  | [], _ => []
  | s :: t, n =>
    if s.isCancelled then insertedEvents courses t n
    else ⟨n, some (signatureOf s), mkEventBody courses s⟩ ::
      insertedEvents courses t (n + 1)

theorem countNC_cons (s : ClassSession) (t : List ClassSession) :
    countNC (s :: t) = if s.isCancelled then countNC t else countNC t + 1 := by
  cases h : s.isCancelled <;> simp [countNC, List.filter_cons, h]

theorem countNC_append (a b : List ClassSession) :
    countNC (a ++ b) = countNC a + countNC b := by
  simp [countNC, List.filter_append]

theorem sigLookup_nil (sig : String) : sigLookup [] sig = none := rfl

theorem sigLookup_append (a b : List CalEvent) (sig : String) :
    sigLookup (a ++ b) sig =
      match sigLookup b sig with
      | some i => some i
      | none => sigLookup a sig := by
  induction a with
  | nil =>
    cases h : sigLookup b sig <;> simp [sigLookup_nil, h]
  | cons e t ih =>
    simp only [List.cons_append, sigLookup, List.append_eq]
    rw [ih]
    cases h : sigLookup b sig <;> cases h2 : sigLookup t sig <;>
      simp [sigLookup, h, h2]

theorem sigLookup_eq_none (l : List CalEvent) (sig : String)
    (h : ∀ e ∈ l, e.signature ≠ some sig) : sigLookup l sig = none := by
  induction l with
  | nil => rfl
  | cons e t ih =>
    have ht := ih (fun e' he' => h e' (List.mem_cons_of_mem _ he'))
    simp only [sigLookup, ht]
    simp [h e (List.mem_cons_self _ _)]

theorem sigLookup_mem (l : List CalEvent) (sig : String) (i : Nat)
    (h : sigLookup l sig = some i) :
    ∃ e ∈ l, e.signature = some sig ∧ e.id = i := by
  induction l with
  | nil => cases h
  | cons e t ih =>
    simp only [sigLookup] at h
    cases h2 : sigLookup t sig with
    | some j =>
      rw [h2] at h
      cases h
      obtain ⟨e', he', hs, hid⟩ := ih h2
      exact ⟨e', List.mem_cons_of_mem _ he', hs, hid⟩
    | none =>
      rw [h2] at h
      by_cases hcond : e.signature = some sig
      · rw [if_pos hcond] at h
        injection h with h3
        exact ⟨e, List.mem_cons_self _ _, hcond, h3⟩
      · rw [if_neg hcond] at h
        cases h

theorem insertedEvents_mem (courses : Rec Course) (l : List ClassSession) :
    ∀ (n : Nat) (e : CalEvent), e ∈ insertedEvents courses l n →
      ∃ s ∈ l, s.isCancelled = false ∧
        e = ⟨e.id, some (signatureOf s), mkEventBody courses s⟩ ∧
        n ≤ e.id ∧ e.id < n + countNC l := by
  induction l with
  | nil => intro n e h; cases h
  | cons s t ih =>
    intro n e h
    cases hc : s.isCancelled with
    | true =>
      rw [show insertedEvents courses (s :: t) n = insertedEvents courses t n by
        simp [insertedEvents, hc]] at h
      obtain ⟨s', hs', hnc, he, hlo, hhi⟩ := ih n e h
      refine ⟨s', List.mem_cons_of_mem _ hs', hnc, he, hlo, ?_⟩
      rw [countNC_cons, if_pos hc]
      exact hhi
    | false =>
      rw [show insertedEvents courses (s :: t) n =
          ⟨n, some (signatureOf s), mkEventBody courses s⟩ ::
            insertedEvents courses t (n + 1) by
        simp [insertedEvents, hc]] at h
      rcases List.mem_cons.mp h with rfl | h
      · refine ⟨s, List.mem_cons_self _ _, hc, rfl, le_refl _, ?_⟩
        rw [countNC_cons, if_neg (by simp [hc])]
        show n < n + (countNC t + 1)
        omega
      · obtain ⟨s', hs', hnc, he, hlo, hhi⟩ := ih (n + 1) e h
        refine ⟨s', List.mem_cons_of_mem _ hs', hnc, he, by omega, ?_⟩
        rw [countNC_cons, if_neg (by simp [hc])]
        omega

theorem insertedEvents_append (courses : Rec Course) (a b : List ClassSession) :
    ∀ n, insertedEvents courses (a ++ b) n =
      insertedEvents courses a n ++ insertedEvents courses b (n + countNC a) := by
  induction a with
  | nil => intro n; simp [insertedEvents, countNC]
  | cons s t ih =>
    intro n
    cases hc : s.isCancelled with
    | true =>
      rw [List.cons_append,
        show insertedEvents courses (s :: (t ++ b)) n =
          insertedEvents courses (t ++ b) n by simp [insertedEvents, hc],
        show insertedEvents courses (s :: t) n = insertedEvents courses t n by
          simp [insertedEvents, hc],
        countNC_cons, if_pos hc]
      exact ih n
    | false =>
      rw [List.cons_append,
        show insertedEvents courses (s :: (t ++ b)) n =
          ⟨n, some (signatureOf s), mkEventBody courses s⟩ ::
            insertedEvents courses (t ++ b) (n + 1) by simp [insertedEvents, hc],
        show insertedEvents courses (s :: t) n =
          ⟨n, some (signatureOf s), mkEventBody courses s⟩ ::
            insertedEvents courses t (n + 1) by simp [insertedEvents, hc],
        countNC_cons, if_neg (by simp [hc]), ih (n + 1), List.cons_append,
        show n + 1 + countNC t = n + (countNC t + 1) by omega]

theorem syncFold_all_insert (courses : Rec Course) (m : String → Option Nat)
    (l : List ClassSession) :
    ∀ (st : SyncState), (∀ s ∈ l, m (signatureOf s) = none) →
      l.foldl (syncStep courses m) st =
        { remote := st.remote ++ insertedEvents courses l st.nextId
          nextId := st.nextId + countNC l
          inserts := st.inserts + countNC l
          updates := st.updates
          deletes := st.deletes } := by
  induction l with
  | nil =>
    intro st _
    simp [insertedEvents, countNC]
  | cons s t ih =>
    intro st hm
    have hms := hm s (List.mem_cons_self _ _)
    rw [List.foldl_cons]
    cases hc : s.isCancelled with
    | true =>
      rw [show syncStep courses m st s = st by
        simp [syncStep, hms, hc]]
      rw [ih st (fun s' hs' => hm s' (List.mem_cons_of_mem _ hs'))]
      rw [show insertedEvents courses (s :: t) st.nextId =
          insertedEvents courses t st.nextId by simp [insertedEvents, hc],
        countNC_cons, if_pos hc]
    | false =>
      rw [show syncStep courses m st s =
          { st with
              remote := st.remote ++
                [⟨st.nextId, some (signatureOf s), mkEventBody courses s⟩]
              nextId := st.nextId + 1
              inserts := st.inserts + 1 } by
        simp [syncStep, hms, hc]]
      rw [ih _ (fun s' hs' => hm s' (List.mem_cons_of_mem _ hs'))]
      rw [show insertedEvents courses (s :: t) st.nextId =
          ⟨st.nextId, some (signatureOf s), mkEventBody courses s⟩ ::
            insertedEvents courses t (st.nextId + 1) by
        simp [insertedEvents, hc],
        countNC_cons, if_neg (by simp [hc])]
      simp only [List.append_assoc, List.singleton_append]
      congr 1 <;> omega

/-- The effect of one non-cancelled session's update on a single remote
event: rewrite the event whose id the signature map names. -/
def perEvent (courses : Rec Course) (m : String → Option Nat)
    (e : CalEvent) (s : ClassSession) : CalEvent :=
  match m (signatureOf s), s.isCancelled with
  | some i, false =>
    if e.id = i then ⟨e.id, some (signatureOf s), mkEventBody courses s⟩ else e
  | _, _ => e

/-- The remote-list effect of one session in an update-only run. -/
def applyUpd (courses : Rec Course) (m : String → Option Nat)
    (R : List CalEvent) (s : ClassSession) : List CalEvent :=
  match m (signatureOf s), s.isCancelled with
  | some i, false =>
    R.map (fun e =>
      if e.id = i then ⟨e.id, some (signatureOf s), mkEventBody courses s⟩ else e)
  | _, _ => R

theorem applyUpd_eq_map (courses : Rec Course) (m : String → Option Nat)
    (R : List CalEvent) (s : ClassSession) :
    applyUpd courses m R s = R.map (fun e => perEvent courses m e s) := by
  unfold applyUpd perEvent
  cases m (signatureOf s) <;> cases s.isCancelled <;> simp

theorem perEvent_id (courses : Rec Course) (m : String → Option Nat)
    (e : CalEvent) (s : ClassSession) :
    (perEvent courses m e s).id = e.id := by
  unfold perEvent
  cases m (signatureOf s) <;> cases s.isCancelled <;> simp
  split <;> simp

theorem foldPer_id (courses : Rec Course) (m : String → Option Nat)
    (l : List ClassSession) :
    ∀ e, (l.foldl (perEvent courses m) e).id = e.id := by
  induction l with
  | nil => intro e; rfl
  | cons s t ih =>
    intro e
    rw [List.foldl_cons, ih, perEvent_id]

theorem foldPer_eq_self (courses : Rec Course) (m : String → Option Nat)
    (l : List ClassSession) :
    ∀ e, (∀ s ∈ l, s.isCancelled = false →
        ∀ i, m (signatureOf s) = some i → i ≠ e.id) →
      l.foldl (perEvent courses m) e = e := by
  induction l with
  | nil => intro e _; rfl
  | cons s t ih =>
    intro e h
    rw [List.foldl_cons]
    have hstep : perEvent courses m e s = e := by
      unfold perEvent
      cases hm : m (signatureOf s) with
      | none => cases s.isCancelled <;> rfl
      | some i =>
        cases hc : s.isCancelled with
        | true => rfl
        | false =>
          have := h s (List.mem_cons_self _ _) hc i hm
          simp [Ne.symm this]
    rw [hstep]
    exact ih e (fun s' hs' => h s' (List.mem_cons_of_mem _ hs'))

theorem applyUpd_foldl_map (courses : Rec Course) (m : String → Option Nat)
    (l : List ClassSession) :
    ∀ R, l.foldl (applyUpd courses m) R =
      R.map (fun e => l.foldl (perEvent courses m) e) := by
  induction l with
  | nil => intro R; simp
  | cons s t ih =>
    intro R
    rw [List.foldl_cons, ih, applyUpd_eq_map, List.map_map]
    simp [Function.comp]

theorem syncFold_all_update (courses : Rec Course) (m : String → Option Nat)
    (l : List ClassSession)
    (hcan : ∀ s ∈ l, s.isCancelled = true → m (signatureOf s) = none)
    (hnc : ∀ s ∈ l, s.isCancelled = false → (m (signatureOf s)).isSome = true) :
    ∀ st, l.foldl (syncStep courses m) st =
      { remote := l.foldl (applyUpd courses m) st.remote
        nextId := st.nextId
        inserts := st.inserts
        updates := st.updates + countNC l
        deletes := st.deletes } := by
  induction l with
  | nil => intro st; simp [countNC]
  | cons s t ih =>
    intro st
    rw [List.foldl_cons, List.foldl_cons]
    cases hc : s.isCancelled with
    | true =>
      have hm := hcan s (List.mem_cons_self _ _) hc
      rw [show syncStep courses m st s = st by simp [syncStep, hm, hc],
        show applyUpd courses m st.remote s = st.remote by
          simp [applyUpd, hm],
        ih (fun s' hs' h => hcan s' (List.mem_cons_of_mem _ hs') h)
          (fun s' hs' h => hnc s' (List.mem_cons_of_mem _ hs') h) st,
        countNC_cons, if_pos hc]
    | false =>
      obtain ⟨i, hm⟩ := Option.isSome_iff_exists.mp
        (hnc s (List.mem_cons_self _ _) hc)
      rw [show syncStep courses m st s =
          { st with remote := applyUpd courses m st.remote s
                    updates := st.updates + 1 } by
        simp [syncStep, applyUpd, hm, hc],
        ih (fun s' hs' h => hcan s' (List.mem_cons_of_mem _ hs') h)
          (fun s' hs' h => hnc s' (List.mem_cons_of_mem _ hs') h),
        countNC_cons, if_neg (by simp [hc])]
      simp only []
      congr 1
      omega

theorem perEvent_hit (courses : Rec Course) (m : String → Option Nat)
    (e : CalEvent) (z : ClassSession) (i : Nat)
    (hm : m (signatureOf z) = some i) (hz : z.isCancelled = false)
    (hid : e.id = i) :
    perEvent courses m e z =
      ⟨e.id, some (signatureOf z), mkEventBody courses z⟩ := by
  unfold perEvent
  rw [hm, hz]
  simp [hid]

theorem perEvent_miss (courses : Rec Course) (m : String → Option Nat)
    (e : CalEvent) (z : ClassSession) (i : Nat)
    (hm : m (signatureOf z) = some i) (hz : z.isCancelled = false)
    (hne : e.id ≠ i) :
    perEvent courses m e z = e := by
  unfold perEvent
  rw [hm, hz]
  simp [hne]

theorem countNC_single_nc (z : ClassSession) (hz : z.isCancelled = false) :
    countNC [z] = 1 := by
  simp [countNC, List.filter, hz]

theorem foldPer_insertedEvents_fixed (courses : Rec Course) :
    ∀ (l : List ClassSession) (n : Nat) (m : String → Option Nat),
      (∀ s ∈ l, s.isCancelled = false) →
      (∀ s ∈ l, m (signatureOf s) =
          sigLookup (insertedEvents courses l n) (signatureOf s) ∨
        ∃ i, m (signatureOf s) = some i ∧ n + countNC l ≤ i) →
      ∀ e ∈ insertedEvents courses l n,
        l.foldl (perEvent courses m) e = e := by
  intro l
  induction l using List.reverseRecOn with
  | nil => intro n m _ _ e he; cases he
  | append_singleton l' z ih =>
    intro n m hnc hm e he
    have hzn : z.isCancelled = false := hnc z (by simp)
    have hcz : countNC (l' ++ [z]) = countNC l' + 1 := by
      rw [countNC_append, countNC_single_nc z hzn]
    have hE : insertedEvents courses (l' ++ [z]) n =
        insertedEvents courses l' n ++
          [⟨n + countNC l', some (signatureOf z), mkEventBody courses z⟩] := by
      rw [insertedEvents_append]
      congr 1
      simp [insertedEvents, hzn]
    have hlook : ∀ σ, sigLookup (insertedEvents courses (l' ++ [z]) n) σ =
        if signatureOf z = σ then some (n + countNC l')
        else sigLookup (insertedEvents courses l' n) σ := by
      intro σ
      rw [hE, sigLookup_append]
      by_cases hσ : signatureOf z = σ
      · simp [sigLookup, hσ]
      · simp [sigLookup, hσ]
    rw [hE] at he
    rcases List.mem_append.mp he with heE' | hez'
    · -- `e` was inserted by a session of `l'`
      obtain ⟨s0, hs0, _, _, hlo, hhi⟩ := insertedEvents_mem courses l' n e heE'
      have hm' : ∀ s ∈ l', m (signatureOf s) =
          sigLookup (insertedEvents courses l' n) (signatureOf s) ∨
          ∃ i, m (signatureOf s) = some i ∧ n + countNC l' ≤ i := by
        intro s hs
        rcases hm s (by simp [hs]) with hA | ⟨i, hBi, hBge⟩
        · rw [hlook (signatureOf s)] at hA
          by_cases hσ : signatureOf z = signatureOf s
          · rw [if_pos hσ] at hA
            exact Or.inr ⟨n + countNC l', hA, le_refl _⟩
          · rw [if_neg hσ] at hA
            exact Or.inl hA
        · exact Or.inr ⟨i, hBi, by omega⟩
      have hfold' : l'.foldl (perEvent courses m) e = e :=
        ih n m (fun s hs => hnc s (by simp [hs])) hm' e heE'
      rw [List.foldl_append, hfold', List.foldl_cons, List.foldl_nil]
      rcases hm z (by simp) with hA | ⟨i, hBi, hBge⟩
      · rw [hlook (signatureOf z), if_pos rfl] at hA
        exact perEvent_miss courses m e z _ hA hzn (by omega)
      · exact perEvent_miss courses m e z i hBi hzn (by omega)
    · -- `e` is the event inserted by `z` itself
      have he2 : e = ⟨n + countNC l', some (signatureOf z), mkEventBody courses z⟩ := by
        simpa using hez'
      rcases hm z (by simp) with hA | ⟨i, hBi, hBge⟩
      · rw [hlook (signatureOf z), if_pos rfl] at hA
        rw [List.foldl_append, List.foldl_cons, List.foldl_nil]
        have hid : (List.foldl (perEvent courses m) e l').id = e.id :=
          foldPer_id courses m l' e
        have hide : e.id = n + countNC l' := by rw [he2]
        rw [perEvent_hit courses m _ z _ hA hzn (by rw [hid, hide])]
        rw [hid, hide, he2]
      · apply foldPer_eq_self
        intro s hs hsc j hj
        intro hcontra
        have hjid : j = e.id := hcontra
        have hide : e.id = n + countNC l' := by rw [he2]
        rcases hm s hs with hA | ⟨i', hB, hBge'⟩
        · by_cases hσ : signatureOf z = signatureOf s
          · rw [hlook (signatureOf s), if_pos hσ] at hA
            have : m (signatureOf z) = m (signatureOf s) := by rw [hσ]
            rw [hBi, hA] at this
            injection this with this
            omega
          · rw [hlook (signatureOf s), if_neg hσ] at hA
            rw [hA] at hj
            obtain ⟨e', he', _, hid'⟩ :=
              sigLookup_mem _ _ _ hj
            obtain ⟨_, _, _, _, _, hhi'⟩ :=
              insertedEvents_mem courses l' n e' he'
            omega
        · rw [hB] at hj
          injection hj with hj
          omega

theorem perEvent_cancelled (courses : Rec Course) (m : String → Option Nat)
    (e : CalEvent) (s : ClassSession) (hc : s.isCancelled = true) :
    perEvent courses m e s = e := by
  unfold perEvent
  cases m (signatureOf s) <;> rw [hc]

theorem foldPer_filter_nc (courses : Rec Course) (m : String → Option Nat)
    (l : List ClassSession) :
    ∀ e, l.foldl (perEvent courses m) e =
      (l.filter (fun s => !s.isCancelled)).foldl (perEvent courses m) e := by
  induction l with
  | nil => intro e; rfl
  | cons s t ih =>
    intro e
    cases hc : s.isCancelled with
    | true =>
      rw [List.foldl_cons, perEvent_cancelled courses m e s hc,
        List.filter_cons, if_neg (by simp [hc])]
      exact ih e
    | false =>
      rw [List.foldl_cons, List.filter_cons, if_pos (by simp [hc]),
        List.foldl_cons]
      exact ih _

theorem insertedEvents_filter_nc (courses : Rec Course)
    (l : List ClassSession) :
    ∀ n, insertedEvents courses l n =
      insertedEvents courses (l.filter (fun s => !s.isCancelled)) n := by
  induction l with
  | nil => intro n; rfl
  | cons s t ih =>
    intro n
    cases hc : s.isCancelled with
    | true =>
      rw [show insertedEvents courses (s :: t) n = insertedEvents courses t n
        by simp [insertedEvents, hc], List.filter_cons, if_neg (by simp [hc])]
      exact ih n
    | false =>
      rw [show insertedEvents courses (s :: t) n =
          ⟨n, some (signatureOf s), mkEventBody courses s⟩ ::
            insertedEvents courses t (n + 1) by simp [insertedEvents, hc],
        List.filter_cons, if_pos (by simp [hc]),
        show insertedEvents courses
            (s :: t.filter (fun s => !s.isCancelled)) n =
          ⟨n, some (signatureOf s), mkEventBody courses s⟩ ::
            insertedEvents courses (t.filter (fun s => !s.isCancelled)) (n + 1)
          by simp [insertedEvents, hc]]
      rw [ih (n + 1)]

theorem sigLookup_insertedEvents_isSome (courses : Rec Course)
    (l : List ClassSession) :
    ∀ (n : Nat) (s : ClassSession), s ∈ l → s.isCancelled = false →
      (sigLookup (insertedEvents courses l n) (signatureOf s)).isSome = true := by
  induction l with
  | nil => intro n s hs; cases hs
  | cons s0 t ih =>
    intro n s hs hnc
    cases hc : s0.isCancelled with
    | true =>
      rw [show insertedEvents courses (s0 :: t) n = insertedEvents courses t n
        by simp [insertedEvents, hc]]
      rcases List.mem_cons.mp hs with rfl | hs'
      · rw [hc] at hnc; cases hnc
      · exact ih n s hs' hnc
    | false =>
      rw [show insertedEvents courses (s0 :: t) n =
          ⟨n, some (signatureOf s0), mkEventBody courses s0⟩ ::
            insertedEvents courses t (n + 1) by simp [insertedEvents, hc]]
      simp only [sigLookup]
      cases h2 : sigLookup (insertedEvents courses t (n + 1)) (signatureOf s) with
      | some j => simp
      | none =>
        rcases List.mem_cons.mp hs with rfl | hs'
        · simp
        · have := ih (n + 1) s hs' hnc
          rw [h2] at this
          cases this

/-- Claim C5 (amended): when no event of the initial remote state carries
the signature of any session in the list, remote ids are fresh, and no
cancelled session shares a signature with a non-cancelled one, running
`syncToCalendar` twice in succession on the same session list — threading
the remote state of the first run into the second — performs zero inserts
in the second run, the second run's update count equals the first run's
insert count, and the remote event list is unchanged by the second run. -/
theorem syncToCalendar_idempotent
    (isFuture : String → Bool) (classes : List ClassSession)
    (courses : Rec Course) (remote0 : List CalEvent) (n0 : Nat)
    (hsig : ∀ e ∈ remote0, ∀ s ∈ classes, e.signature ≠ some (signatureOf s))
    (hfresh : ∀ e ∈ remote0, e.id < n0)
    (hmix : ∀ s ∈ classes, ∀ t ∈ classes, s.isCancelled = false →
      t.isCancelled = true → signatureOf s ≠ signatureOf t) :
    (syncToCalendar isFuture classes courses
        (syncToCalendar isFuture classes courses remote0 n0).remote
        (syncToCalendar isFuture classes courses remote0 n0).nextId).inserts
      = 0 ∧
    (syncToCalendar isFuture classes courses
        (syncToCalendar isFuture classes courses remote0 n0).remote
        (syncToCalendar isFuture classes courses remote0 n0).nextId).updates
      = (syncToCalendar isFuture classes courses remote0 n0).inserts ∧
    (syncToCalendar isFuture classes courses
        (syncToCalendar isFuture classes courses remote0 n0).remote
        (syncToCalendar isFuture classes courses remote0 n0).nextId).remote
      = (syncToCalendar isFuture classes courses remote0 n0).remote := by
  have hFsub : ∀ s ∈ classes.filter (fun c => isFuture c.date), s ∈ classes :=
    fun s hs => (List.mem_filter.mp hs).1
  -- run 1 inserts everything (the map finds nothing)
  have hm1 : ∀ s ∈ classes.filter (fun c => isFuture c.date),
      sigLookup remote0 (signatureOf s) = none := fun s hs =>
    sigLookup_eq_none _ _ (fun e he => hsig e he s (hFsub s hs))
  have hr1 : syncToCalendar isFuture classes courses remote0 n0 =
      { remote := remote0 ++ insertedEvents courses
          (classes.filter (fun c => isFuture c.date)) n0
        nextId := n0 + countNC (classes.filter (fun c => isFuture c.date))
        inserts := 0 + countNC (classes.filter (fun c => isFuture c.date))
        updates := 0
        deletes := 0 } := by
    simp only [syncToCalendar]
    exact syncFold_all_insert courses (sigLookup remote0)
      (classes.filter (fun c => isFuture c.date))
      { remote := remote0, nextId := n0, inserts := 0, updates := 0, deletes := 0 }
      hm1
  -- abbreviations (plain definitions, no tactic state rewriting)
  have hEmem : ∀ e ∈ insertedEvents courses
      (classes.filter (fun c => isFuture c.date)) n0,
      ∃ s ∈ classes.filter (fun c => isFuture c.date), s.isCancelled = false ∧
        e = ⟨e.id, some (signatureOf s), mkEventBody courses s⟩ ∧
        n0 ≤ e.id ∧
        e.id < n0 + countNC (classes.filter (fun c => isFuture c.date)) :=
    fun e he => insertedEvents_mem courses _ n0 e he
  have hEnone : ∀ s ∈ classes.filter (fun c => isFuture c.date),
      s.isCancelled = true →
      sigLookup (insertedEvents courses
        (classes.filter (fun c => isFuture c.date)) n0) (signatureOf s) = none := by
    intro s hs hcs
    apply sigLookup_eq_none
    intro e he
    obtain ⟨s', hs', hnc', hee, _, _⟩ := hEmem e he
    rw [hee]
    intro hcon
    injection hcon with hcon
    exact hmix s' (hFsub s' hs') s (hFsub s hs) hnc' hcs hcon
  have hm2c : ∀ s ∈ classes.filter (fun c => isFuture c.date),
      s.isCancelled = true →
      sigLookup (remote0 ++ insertedEvents courses
        (classes.filter (fun c => isFuture c.date)) n0) (signatureOf s) = none := by
    intro s hs hcs
    rw [sigLookup_append, hEnone s hs hcs]
    exact hm1 s hs
  have hm2E : ∀ s ∈ classes.filter (fun c => isFuture c.date),
      s.isCancelled = false →
      sigLookup (remote0 ++ insertedEvents courses
          (classes.filter (fun c => isFuture c.date)) n0) (signatureOf s) =
        sigLookup (insertedEvents courses
          (classes.filter (fun c => isFuture c.date)) n0) (signatureOf s) := by
    intro s hs hnc
    rw [sigLookup_append]
    have hsome := sigLookup_insertedEvents_isSome courses _ n0 s hs hnc
    cases hcase : sigLookup (insertedEvents courses
        (classes.filter (fun c => isFuture c.date)) n0) (signatureOf s) with
    | none => rw [hcase] at hsome; cases hsome
    | some j => rfl
  have hm2nc : ∀ s ∈ classes.filter (fun c => isFuture c.date),
      s.isCancelled = false →
      (sigLookup (remote0 ++ insertedEvents courses
        (classes.filter (fun c => isFuture c.date)) n0)
          (signatureOf s)).isSome = true := by
    intro s hs hnc
    rw [hm2E s hs hnc]
    exact sigLookup_insertedEvents_isSome courses _ n0 s hs hnc
  -- run 2 is update-only
  have hr2 : syncToCalendar isFuture classes courses
      (syncToCalendar isFuture classes courses remote0 n0).remote
      (syncToCalendar isFuture classes courses remote0 n0).nextId =
      { remote := (classes.filter (fun c => isFuture c.date)).foldl
          (applyUpd courses (sigLookup (remote0 ++ insertedEvents courses
            (classes.filter (fun c => isFuture c.date)) n0)))
          (remote0 ++ insertedEvents courses
            (classes.filter (fun c => isFuture c.date)) n0)
        nextId := n0 + countNC (classes.filter (fun c => isFuture c.date))
        inserts := 0
        updates := 0 + countNC (classes.filter (fun c => isFuture c.date))
        deletes := 0 } := by
    rw [hr1]
    simp only [syncToCalendar]
    exact syncFold_all_update courses _ _ hm2c hm2nc _
  -- the update pass rewrites every event with its current contents
  have hremote : (classes.filter (fun c => isFuture c.date)).foldl
      (applyUpd courses (sigLookup (remote0 ++ insertedEvents courses
        (classes.filter (fun c => isFuture c.date)) n0)))
      (remote0 ++ insertedEvents courses
        (classes.filter (fun c => isFuture c.date)) n0) =
      remote0 ++ insertedEvents courses
        (classes.filter (fun c => isFuture c.date)) n0 := by
    rw [applyUpd_foldl_map]
    have hpoint : ∀ e ∈ remote0 ++ insertedEvents courses
        (classes.filter (fun c => isFuture c.date)) n0,
        (classes.filter (fun c => isFuture c.date)).foldl
          (perEvent courses (sigLookup (remote0 ++ insertedEvents courses
            (classes.filter (fun c => isFuture c.date)) n0))) e = e := by
      intro e he
      rcases List.mem_append.mp he with h0 | hEe
      · -- events predating the first run are never touched
        apply foldPer_eq_self
        intro s hs hnc i hmi
        rw [hm2E s hs hnc] at hmi
        obtain ⟨e', he', _, hid'⟩ := sigLookup_mem _ _ _ hmi
        obtain ⟨_, _, _, _, hlo', _⟩ := hEmem e' he'
        have := hfresh e h0
        omega
      · -- events inserted by the first run are rewritten with their own data
        rw [foldPer_filter_nc]
        have hEeq : insertedEvents courses
            (classes.filter (fun c => isFuture c.date)) n0 =
            insertedEvents courses
              ((classes.filter (fun c => isFuture c.date)).filter
                (fun s => !s.isCancelled)) n0 :=
          insertedEvents_filter_nc courses _ n0
        apply foldPer_insertedEvents_fixed courses
          ((classes.filter (fun c => isFuture c.date)).filter
            (fun s => !s.isCancelled)) n0
        · intro s hs
          have := (List.mem_filter.mp hs).2
          simpa using this
        · intro s hs
          left
          have hsF : s ∈ classes.filter (fun c => isFuture c.date) :=
            (List.mem_filter.mp hs).1
          have hnc : s.isCancelled = false := by
            simpa using (List.mem_filter.mp hs).2
          rw [hm2E s hsF hnc, hEeq]
        · rw [← hEeq]
          exact hEe
    calc (remote0 ++ insertedEvents courses
            (classes.filter (fun c => isFuture c.date)) n0).map
          (fun e => (classes.filter (fun c => isFuture c.date)).foldl
            (perEvent courses (sigLookup (remote0 ++ insertedEvents courses
              (classes.filter (fun c => isFuture c.date)) n0))) e)
        = (remote0 ++ insertedEvents courses
            (classes.filter (fun c => isFuture c.date)) n0).map id := by
          exact List.map_congr_left hpoint
      _ = _ := List.map_id _
  refine ⟨?_, ?_, ?_⟩
  · rw [hr2]
  · rw [hr2, hr1]
  · rw [hr2, hr1, hremote]

/-- A non-cancelled future session used by the calendar counterexamples. -/
def ceSession : ClassSession := ⟨"d", "t", "DT", "1", none, "DT 1", false⟩

/-- A cancelled session sharing `ceSession`'s signature `d-t-DT`. -/
def ceC : ClassSession := ⟨"d", "t", "DT", "2", none, "DT 2", true⟩

/-- An initial remote state already holding an event with the signature of
`ceSession`. -/
def ceRemote : List CalEvent :=
  [⟨0, some (signatureOf ceSession), ⟨"x", "y", "z", "w", "q"⟩⟩]

/-- Claim C5 is false as stated (with the first run's initial remote state
unconstrained): when the initial remote state already holds a matching
event, the first run performs zero inserts and one update, and the second
run's update count is 1 ≠ 0 = the first run's insert count. -/
theorem syncToCalendar_idempotent_counterexample :
    (syncToCalendar (fun _ => true) [ceSession] dtCourses ceRemote 1).inserts
      = 0 ∧
    (syncToCalendar (fun _ => true) [ceSession] dtCourses
      (syncToCalendar (fun _ => true) [ceSession] dtCourses ceRemote 1).remote
      (syncToCalendar (fun _ => true) [ceSession] dtCourses
        ceRemote 1).nextId).inserts = 0 ∧
    (syncToCalendar (fun _ => true) [ceSession] dtCourses
      (syncToCalendar (fun _ => true) [ceSession] dtCourses ceRemote 1).remote
      (syncToCalendar (fun _ => true) [ceSession] dtCourses
        ceRemote 1).nextId).updates = 1 ∧
    (syncToCalendar (fun _ => true) [ceSession] dtCourses
      (syncToCalendar (fun _ => true) [ceSession] dtCourses ceRemote 1).remote
      (syncToCalendar (fun _ => true) [ceSession] dtCourses
        ceRemote 1).nextId).updates ≠
      (syncToCalendar (fun _ => true) [ceSession] dtCourses
        ceRemote 1).inserts := by
  refine ⟨by decide, by decide, by decide, by decide⟩

theorem syncToCalendar_idempotent_witness :
    (syncToCalendar (fun _ => true) [ceSession] dtCourses
        (syncToCalendar (fun _ => true) [ceSession] dtCourses [] 0).remote
        (syncToCalendar (fun _ => true) [ceSession] dtCourses [] 0).nextId).inserts
      = 0 ∧
    (syncToCalendar (fun _ => true) [ceSession] dtCourses
        (syncToCalendar (fun _ => true) [ceSession] dtCourses [] 0).remote
        (syncToCalendar (fun _ => true) [ceSession] dtCourses [] 0).nextId).updates
      = (syncToCalendar (fun _ => true) [ceSession] dtCourses [] 0).inserts ∧
    (syncToCalendar (fun _ => true) [ceSession] dtCourses
        (syncToCalendar (fun _ => true) [ceSession] dtCourses [] 0).remote
        (syncToCalendar (fun _ => true) [ceSession] dtCourses [] 0).nextId).remote
      = (syncToCalendar (fun _ => true) [ceSession] dtCourses [] 0).remote :=
  syncToCalendar_idempotent (fun _ => true) [ceSession] dtCourses [] 0
    (by simp) (by simp) (by decide)

/-! ## Claim C6 -/

/-- Claim C6 (amended): a cancelled session deletes the remote event its
signature maps to when one exists and is skipped otherwise, and never
inserts or updates; against an empty remote state a run performs no update
and no delete at all and — provided no non-cancelled session shares a
signature with the cancelled session — leaves no remote event carrying the
cancelled session's signature. -/
theorem syncCancelled_spec :
    (∀ (courses : Rec Course) (m : String → Option Nat) (st : SyncState)
        (c : ClassSession), c.isCancelled = true →
      ((m (signatureOf c) = none → syncStep courses m st c = st) ∧
       (∀ eid, m (signatureOf c) = some eid →
          syncStep courses m st c =
            { st with remote := st.remote.filter (fun e => e.id ≠ eid)
                      deletes := st.deletes + 1 }) ∧
       (syncStep courses m st c).inserts = st.inserts ∧
       (syncStep courses m st c).updates = st.updates)) ∧
    (∀ (isFuture : String → Bool) (classes : List ClassSession)
        (courses : Rec Course) (n : Nat) (c : ClassSession),
      c ∈ classes → c.isCancelled = true →
      (∀ s ∈ classes, s.isCancelled = false →
        signatureOf s ≠ signatureOf c) →
      (syncToCalendar isFuture classes courses [] n).updates = 0 ∧
      (syncToCalendar isFuture classes courses [] n).deletes = 0 ∧
      ∀ e ∈ (syncToCalendar isFuture classes courses [] n).remote,
        e.signature ≠ some (signatureOf c)) := by
  constructor
  · intro courses m st c hc
    refine ⟨?_, ?_, ?_, ?_⟩
    · intro hm; simp [syncStep, hm, hc]
    · intro eid hm; simp [syncStep, hm, hc]
    · cases hm : m (signatureOf c) <;> simp [syncStep, hm, hc]
    · cases hm : m (signatureOf c) <;> simp [syncStep, hm, hc]
  · intro isFuture classes courses n c hcmem hcc hcol
    have hrun : syncToCalendar isFuture classes courses [] n =
        { remote := [] ++ insertedEvents courses
            (classes.filter (fun t => isFuture t.date)) n
          nextId := n + countNC (classes.filter (fun t => isFuture t.date))
          inserts := 0 + countNC (classes.filter (fun t => isFuture t.date))
          updates := 0
          deletes := 0 } := by
      simp only [syncToCalendar]
      exact syncFold_all_insert courses (sigLookup [])
        (classes.filter (fun t => isFuture t.date))
        { remote := [], nextId := n, inserts := 0, updates := 0, deletes := 0 }
        (fun s _ => rfl)
    rw [hrun]
    refine ⟨rfl, rfl, ?_⟩
    intro e he
    simp only [List.nil_append] at he
    obtain ⟨s', hs', hnc', hee, _, _⟩ :=
      insertedEvents_mem courses _ n e he
    rw [hee]
    intro hcon
    injection hcon with hcon
    exact hcol s' ((List.mem_filter.mp hs').1) hnc' hcon

/-- Claim C6 is false in its "zero remote events with that signature" part:
with a non-cancelled session sharing the cancelled session's signature,
running the reconciler against an empty remote state leaves one remote
event carrying the cancelled session's signature. -/
theorem syncCancelled_counterexample :
    ceC.isCancelled = true ∧
    ceSession.isCancelled = false ∧
    signatureOf ceSession = signatureOf ceC ∧
    ((syncToCalendar (fun _ => true) [ceSession, ceC] dtCourses [] 0).remote.filter
      (fun e => e.signature = some (signatureOf ceC))).length = 1 := by
  refine ⟨rfl, rfl, rfl, by decide⟩

theorem syncCancelled_spec_witness :
    (syncToCalendar (fun _ => true) [ceC] dtCourses [] 0).updates = 0 ∧
    (syncToCalendar (fun _ => true) [ceC] dtCourses [] 0).deletes = 0 ∧
    ∀ e ∈ (syncToCalendar (fun _ => true) [ceC] dtCourses [] 0).remote,
      e.signature ≠ some (signatureOf ceC) :=
  syncCancelled_spec.2 (fun _ => true) [ceC] dtCourses 0 ceC
    (by decide) (by decide) (by decide)
